import Mathlib

/-!
Shallow embedding of the GOTS reconciliation engine (`src/sync_service.py`)
and verification of its specified properties.

The three reconcilers (`sync_group_to_team`, `update_user_roles`,
`sync_admin_privileges`) are modelled as pure functions over an explicit
environment `SyncEnv` that stands for the two API clients (Okta source,
Grafana sink).  Fallible client calls are modelled with `Except Unit`
(snapshot fetches and user lookups) or `Bool` success flags (mutations).
Python `set` iteration order is modelled by an enumeration function
`SyncEnv.enum`; theorems assume only that it enumerates each finite set
without duplicates (`ValidEnum`).  Python dicts are modelled as association
lists with insertion-order-preserving update (`dictSet`).  Issued mutation
calls are recorded in a trace together with their success flag.
-/

namespace GOTS

/-- Python `str.lower()` as used on email addresses: lower-case every
character (kernel-reducible counterpart of `String.toLower`). -/
def lower (s : String) : String := ⟨s.data.map Char.toLower⟩

/-- The profile of an Okta member record; only the email is consumed. -/
structure OktaProfile where
  email : String
deriving DecidableEq, Repr

/-- A member record returned by the Okta client: the sync service reads
`m["profile"]["email"]`. -/
structure OktaMember where
  profile : OktaProfile
deriving DecidableEq, Repr

/-- A Grafana team member record as consumed by the sync service:
`m["email"]` and `m["userId"]`. -/
structure TeamMember where
  email : String
  userId : Nat
deriving DecidableEq, Repr

/-- A Grafana user as returned by `get_user_by_email` (normalized by the
client, which always populates the `role` key, defaulting it to Viewer). -/
structure GrafanaUser where
  id : Nat
  email : String
  role : String
deriving DecidableEq, Repr

/-- An entry of the `/api/org/users` roster consumed by
`sync_admin_privileges`: `email`, `userId`, `isGrafanaAdmin`. -/
structure OrgUser where
  email : String
  userId : Nat
  isGrafanaAdmin : Bool
deriving DecidableEq, Repr

/-- `ROLE_HIERARCHY = {"Admin": 3, "Editor": 2, "Viewer": 1}` read through
`.get(role, 0)`: unknown roles map to 0. -/
def ROLE_HIERARCHY (role : String) : Nat :=
  if role = "Admin" then 3 else if role = "Editor" then 2 else
  if role = "Viewer" then 1 else 0

/-- `get_highest_role`: `role1 if ROLE_HIERARCHY.get(role1, 0) >
ROLE_HIERARCHY.get(role2, 0) else role2`. -/
def get_highest_role (role1 role2 : String) : String :=
  if ROLE_HIERARCHY role1 > ROLE_HIERARCHY role2 then role1 else role2

/-- `{m["profile"]["email"].lower() for m in okta_members}`. -/
def oktaEmails (members : List OktaMember) : Finset String :=
  (members.map (fun m => lower m.profile.email)).toFinset

/-- `{m["email"].lower() for m in grafana_members}`. -/
def grafanaEmails (members : List TeamMember) : Finset String :=
  (members.map (fun m => lower m.email)).toFinset

/-- Python dict read `d.get(k)` on an association list. -/
def dictGet (d : List (String × String)) (k : String) : Option String :=
  (d.find? (fun p => p.1 == k)).map Prod.snd

/-- Python dict write `d[k] = v`: update in place if the key exists,
otherwise append (insertion order preserved). -/
def dictSet (d : List (String × String)) (k v : String) :
    List (String × String) :=
  if (d.find? (fun p => p.1 == k)).isSome then
    d.map (fun p => if p.1 == k then (k, v) else p)
  else d ++ [(k, v)]

/-- The `SyncMetrics` dataclass. -/
structure SyncMetrics where
  users_added : Nat := 0
  users_removed : Nat := 0
  roles_updated : Nat := 0
  errors : Nat := 0
  duration_seconds : Rat := 0
deriving DecidableEq, Repr

/-- A mutation call issued against the Grafana API. -/
inductive Mutation where
  | addToTeam (teamId userId : Nat)
  | removeFromTeam (teamId userId : Nat)
  | updateRole (userId : Nat) (role : String)
  | setAdmin (userId : Nat) (isAdmin : Bool)
deriving DecidableEq, Repr

/-- The arguments passed to the metrics collector's
`record_sync_complete` hook. -/
structure SyncCompleteRecord where
  duration : Rat
  users_added : Nat
  users_removed : Nat
  errors : Nat
deriving DecidableEq, Repr

/-- The environment: behaviour of the Okta and Grafana clients during one
call, plus the iteration order of Python sets (`enum`) and the measured
wall-clock duration (`elapsed`, standing for `time.time() - start_time`). -/
structure SyncEnv where
  getGroupMembers : String → Except Unit (List OktaMember)
  getOrCreateTeam : String → Except Unit Nat
  getTeamMembers : Nat → Except Unit (List TeamMember)
  getUserByEmail : String → Except Unit (Option GrafanaUser)
  addUserToTeam : Nat → Nat → Bool
  removeUserFromTeam : Nat → Nat → Bool
  updateUserRole : Nat → String → Bool
  setUserAdminPermission : Nat → Bool → Bool
  getOrgUsers : Except Unit (List OrgUser)
  enum : Finset String → List String
  elapsed : Rat

/-- `enum` enumerates every finite set faithfully: no duplicates, and
exactly the set's elements.  This is all the code may assume about Python's
set iteration order. -/
def ValidEnum (enum : Finset String → List String) : Prop :=
  ∀ s : Finset String, (enum s).Nodup ∧ (enum s).toFinset = s

/-- One iteration of the add loop of `sync_group_to_team` (lines 135-161):
look the user up (a raised exception is caught and counted as an error),
skip silently when the user does not exist, otherwise add to the team
(dry-run only counts). -/
def addStep (env : SyncEnv) (dry : Bool) (teamId : Nat)
    (acc : SyncMetrics × List (Mutation × Bool)) (email : String) :
    SyncMetrics × List (Mutation × Bool) :=
  match env.getUserByEmail email with
  | .error _ => ({ acc.1 with errors := acc.1.errors + 1 }, acc.2)
  | .ok none => acc
  | .ok (some user) =>
      if dry then ({ acc.1 with users_added := acc.1.users_added + 1 }, acc.2)
      else if env.addUserToTeam teamId user.id then
        ({ acc.1 with users_added := acc.1.users_added + 1 },
          acc.2 ++ [(.addToTeam teamId user.id, true)])
      else
        ({ acc.1 with errors := acc.1.errors + 1 },
          acc.2 ++ [(.addToTeam teamId user.id, false)])

/-- One iteration of the remove loop of `sync_group_to_team` (lines
164-182): resolve the member id from the already-fetched member list
(`next(...)`; an exhausted iterator raises and is caught as an error),
then remove from the team (dry-run only counts). -/
def removeStep (env : SyncEnv) (dry : Bool) (teamId : Nat)
    (grafana_members : List TeamMember)
    (acc : SyncMetrics × List (Mutation × Bool)) (email : String) :
    SyncMetrics × List (Mutation × Bool) :=
  match grafana_members.find? (fun m => lower m.email == email) with
  | none => ({ acc.1 with errors := acc.1.errors + 1 }, acc.2)
  | some member =>
      if dry then
        ({ acc.1 with users_removed := acc.1.users_removed + 1 }, acc.2)
      else if env.removeUserFromTeam teamId member.userId then
        ({ acc.1 with users_removed := acc.1.users_removed + 1 },
          acc.2 ++ [(.removeFromTeam teamId member.userId, true)])
      else
        ({ acc.1 with errors := acc.1.errors + 1 },
          acc.2 ++ [(.removeFromTeam teamId member.userId, false)])

/-- The desired-role tracking loop of `sync_group_to_team` (lines 122-126):
`for email in okta_emails: desired_roles[email] =
get_highest_role(desired_roles.get(email, "Viewer"), grafana_role)`. -/
def track_desired_roles (enum : Finset String → List String)
    (okta_emails : Finset String) (grafana_role : String)
    (d : List (String × String)) : List (String × String) :=
  (enum okta_emails).foldl
    (fun acc email =>
      dictSet acc email
        (get_highest_role ((dictGet acc email).getD "Viewer") grafana_role))
    d

/-- `to_add = okta_emails - grafana_emails` (line 129). -/
def sync_to_add (okta_members : List OktaMember)
    (grafana_members : List TeamMember) : Finset String :=
  oktaEmails okta_members \ grafanaEmails grafana_members

/-- `to_remove = grafana_emails - okta_emails` (line 130). -/
def sync_to_remove (okta_members : List OktaMember)
    (grafana_members : List TeamMember) : Finset String :=
  grafanaEmails grafana_members \ oktaEmails okta_members

/-- The outcome of one `sync_group_to_team` call: whether the call
re-raised an exception, the finalized `SyncMetrics`, the trace of issued
mutation calls with their success, the `desired_roles` dict after the
call, and the record passed to the metrics collector completion hook. -/
structure SyncOutcome where
  raised : Bool
  metrics : SyncMetrics
  trace : List (Mutation × Bool)
  desired : List (String × String)
  emitted : SyncCompleteRecord
deriving DecidableEq

/-- Outcome when a snapshot fetch raises (lines 184-209): the exception is
re-raised, but the `finally` block first sets the duration and invokes the
completion hook with zero progress and one error. -/
def abortOutcome (elapsed : Rat) (desired : List (String × String)) :
    SyncOutcome :=
  { raised := true
    metrics := { users_added := 0, users_removed := 0, roles_updated := 0,
                 errors := 1, duration_seconds := elapsed }
    trace := []
    desired := desired
    emitted := { duration := elapsed, users_added := 0, users_removed := 0,
                 errors := 1 } }

/-- `sync_group_to_team` (lines 69-209): fetch the Okta group members, the
Grafana team and its members (any of these failing aborts the mapping),
track desired roles, diff the lower-cased email sets, then run the add and
remove loops with per-identity error isolation. -/
def sync_group_to_team (env : SyncEnv) (dry : Bool)
    (okta_group_name grafana_team_name grafana_role : String)
    (desired_roles : List (String × String)) : SyncOutcome :=
  match env.getGroupMembers okta_group_name with
  | .error _ => abortOutcome env.elapsed desired_roles
  | .ok okta_members =>
    match env.getOrCreateTeam grafana_team_name with
    | .error _ => abortOutcome env.elapsed desired_roles
    | .ok team_id =>
      match env.getTeamMembers team_id with
      | .error _ => abortOutcome env.elapsed desired_roles
      | .ok grafana_members =>
        let okta_emails := oktaEmails okta_members
        let desired :=
          track_desired_roles env.enum okta_emails grafana_role desired_roles
        let to_add := sync_to_add okta_members grafana_members
        let to_remove := sync_to_remove okta_members grafana_members
        let afterAdd :=
          (env.enum to_add).foldl (addStep env dry team_id)
            (({} : SyncMetrics), ([] : List (Mutation × Bool)))
        let afterRemove :=
          (env.enum to_remove).foldl
            (removeStep env dry team_id grafana_members) afterAdd
        let m := { afterRemove.1 with duration_seconds := env.elapsed }
        { raised := false
          metrics := m
          trace := afterRemove.2
          desired := desired
          emitted := { duration := env.elapsed,
                       users_added := m.users_added,
                       users_removed := m.users_removed,
                       errors := m.errors } }

/-- One iteration of `update_user_roles` (lines 227-257): look the user up
(exceptions, including a failing role update, are caught and logged without
touching the counter), skip missing users, and update only when the current
role differs from the desired role by string comparison. -/
def roleStep (env : SyncEnv) (dry : Bool)
    (acc : Nat × List (Mutation × Bool)) (p : String × String) :
    Nat × List (Mutation × Bool) :=
  match env.getUserByEmail p.1 with
  | .error _ => acc
  | .ok none => acc
  | .ok (some user) =>
      if user.role ≠ p.2 then
        if dry then (acc.1 + 1, acc.2)
        else if env.updateUserRole user.id p.2 then
          (acc.1 + 1, acc.2 ++ [(.updateRole user.id p.2, true)])
        else (acc.1, acc.2 ++ [(.updateRole user.id p.2, false)])
      else acc

/-- `update_user_roles` (lines 211-259): iterate over the desired-roles
dict and reconcile each found user's role, returning the number of roles
updated. -/
def update_user_roles (env : SyncEnv) (dry : Bool)
    (desired_roles : List (String × String)) :
    Nat × List (Mutation × Bool) :=
  desired_roles.foldl (roleStep env dry) (0, [])

/-- The admin-email union of `sync_admin_privileges` (lines 284-294): a
failing group lookup is logged and that group is simply excluded. -/
def adminUnion (env : SyncEnv) (admin_groups : List String) : Finset String :=
  admin_groups.foldl
    (fun acc g =>
      match env.getGroupMembers g with
      | .ok members => acc ∪ oktaEmails members
      | .error _ => acc)
    ∅

/-- One iteration of the admin sweep (lines 307-339): mutate only when the
current flag differs from membership in the union; a failing set-admin call
is caught and not counted. -/
def adminStep (env : SyncEnv) (dry : Bool) (admin_emails : Finset String)
    (acc : Nat × List (Mutation × Bool)) (user : OrgUser) :
    Nat × List (Mutation × Bool) :=
  let should : Bool := decide (lower user.email ∈ admin_emails)
  if user.isGrafanaAdmin = should then acc
  else if dry then (acc.1 + 1, acc.2)
  else if env.setUserAdminPermission user.userId should then
    (acc.1 + 1, acc.2 ++ [(.setAdmin user.userId should, true)])
  else (acc.1, acc.2 ++ [(.setAdmin user.userId should, false)])

/-- `sync_admin_privileges` (lines 261-345): short-circuit on an empty
group list, union the admin groups' member emails, fetch the full org
roster (a failure there is caught and the running count, still 0, is
returned), then sweep every roster user. -/
def sync_admin_privileges (env : SyncEnv) (dry : Bool)
    (admin_groups : List String) : Nat × List (Mutation × Bool) :=
  if admin_groups = [] then (0, [])
  else
    let admin_emails := adminUnion env admin_groups
    match env.getOrgUsers with
    | .error _ => (0, [])
    | .ok all_users => all_users.foldl (adminStep env dry admin_emails) (0, [])

/-- A user record as stored by the sink (Grafana): numeric id, email,
organization role, and the instance-admin flag. -/
structure SinkUser where
  id : Nat
  email : String
  role : String
  isAdmin : Bool
deriving DecidableEq, Repr

/-- The sink state the claims about applied mutations quantify over: the
org user roster and the member list of the (single) relevant team. -/
structure SinkState where
  users : List SinkUser
  team : List TeamMember
deriving DecidableEq, Repr

/-- First roster user whose lower-cased email matches (the email argument
is already lower-cased by the callers in `sync_service`). -/
def findByEmail (st : SinkState) (e : String) : Option SinkUser :=
  st.users.find? (fun u => lower u.email == e)

/-- `get_user_by_email` against this sink state. -/
def lookupUser (st : SinkState) (e : String) : Option GrafanaUser :=
  (findByEmail st e).map (fun u => ⟨u.id, u.email, u.role⟩)

/-- First roster user with this id. -/
def userById (st : SinkState) (uid : Nat) : Option SinkUser :=
  st.users.find? (fun u => u.id == uid)

/-- Role of the roster user with this id, when one exists. -/
def roleById (st : SinkState) (uid : Nat) : Option String :=
  (userById st uid).map SinkUser.role

/-- Admin flag of the roster user with this id, when one exists. -/
def flagById (st : SinkState) (uid : Nat) : Option Bool :=
  (userById st uid).map SinkUser.isAdmin

/-- The `/api/org/users` view of one sink user. -/
def toOrg (u : SinkUser) : OrgUser := ⟨u.email, u.id, u.isAdmin⟩

/-- The `/api/org/users` roster view of this sink state. -/
def orgUsersOf (st : SinkState) : List OrgUser :=
  st.users.map toOrg

/-- The environment whose Grafana side reflects a sink state, whose Okta
side is an arbitrary fixed group table, and in which every mutation call
succeeds. -/
def envOf (groups : String → Except Unit (List OktaMember))
    (enum : Finset String → List String) (elapsed : Rat)
    (st : SinkState) : SyncEnv :=
  { getGroupMembers := groups
    getOrCreateTeam := fun _ => .ok 1
    getTeamMembers := fun _ => .ok st.team
    getUserByEmail := fun e => .ok (lookupUser st e)
    addUserToTeam := fun _ _ => true
    removeUserFromTeam := fun _ _ => true
    updateUserRole := fun _ _ => true
    setUserAdminPermission := fun _ _ => true
    getOrgUsers := .ok (orgUsersOf st)
    enum := enum
    elapsed := elapsed }

/-- Effect of one successful mutation call on the sink. -/
def applyMutation (st : SinkState) : Mutation → SinkState
  | .addToTeam _ uid =>
    match st.users.find? (fun u => u.id == uid) with
    | some u => { st with team := st.team ++ [⟨u.email, uid⟩] }
    | none => st
  | .removeFromTeam _ uid =>
    { st with team := st.team.filter (fun m => m.userId != uid) }
  | .updateRole uid r =>
    { st with users :=
        st.users.map (fun u =>
          if u.id == uid then { u with role := r } else u) }
  | .setAdmin uid b =>
    { st with users :=
        st.users.map (fun u =>
          if u.id == uid then { u with isAdmin := b } else u) }

/-- Apply every successful mutation of a trace, in order. -/
def applyTrace (st : SinkState) (tr : List (Mutation × Bool)) : SinkState :=
  tr.foldl (fun s x => if x.2 then applyMutation s x.1 else s) st

/-- Sink consistency: roster ids and lower-cased emails are unique, team
member lower-cased emails are unique, and every team member matches a
roster user by id and lower-cased email. -/
def WF (st : SinkState) : Prop :=
  (st.users.map SinkUser.id).Nodup ∧
  (st.users.map (fun u => lower u.email)).Nodup ∧
  (st.team.map (fun m => lower m.email)).Nodup ∧
  ∀ m ∈ st.team, ∃ u ∈ st.users, u.id = m.userId ∧
    lower u.email = lower m.email

/-- Mutations that touch only the user roster, never a team. -/
def usersOnly : Mutation → Bool
  | .updateRole _ _ => true
  | .setAdmin _ _ => true
  | _ => false

/-- Whether a mutation rewrites the role of the user with this id. -/
def touchesRole (uid : Nat) : Mutation → Bool
  | .updateRole uid2 _ => uid2 == uid
  | _ => false

/-- Whether a mutation rewrites the admin flag of the user with this
id. -/
def touchesFlag (uid : Nat) : Mutation → Bool
  | .setAdmin uid2 _ => uid2 == uid
  | _ => false

/-- The team member record a successful add for this email creates. -/
def provisionedMember (st : SinkState) (e : String) : Option TeamMember :=
  (findByEmail st e).map (fun su => ⟨su.email, su.id⟩)

/-- The member id a successful removal for this email deletes. -/
def removalId (mems : List TeamMember) (e : String) : Option Nat :=
  (mems.find? (fun m => lower m.email == e)).map TeamMember.userId

/-- A configured group mapping (`config.sync.mappings` entry):
Okta group name, Grafana team name, Grafana role. -/
structure GroupMapping where
  okta_group : String
  grafana_team : String
  role : String
deriving DecidableEq, Repr

/-- The per-tick mapping loop of `main.sync_job`: every mapping is synced
with the shared `desired_roles` dict threaded through (a mapping whose
sync raises is caught by `run_sync` and leaves the dict unchanged, which
`sync_group_to_team` already guarantees). -/
def runTick (env : SyncEnv) (dry : Bool) (maps : List GroupMapping)
    (d : List (String × String)) : List (String × String) :=
  maps.foldl
    (fun acc m =>
      (sync_group_to_team env dry m.okta_group m.grafana_team m.role acc).desired)
    d

/-- All three snapshot fetches of `sync_group_to_team` succeed for this
mapping under this environment. -/
def fetchOk (env : SyncEnv) (m : GroupMapping) : Bool :=
  match env.getGroupMembers m.okta_group with
  | .error _ => false
  | .ok _ =>
    match env.getOrCreateTeam m.grafana_team with
    | .error _ => false
    | .ok tid =>
      match env.getTeamMembers tid with
      | .error _ => false
      | .ok _ => true

/-- The lower-cased member emails of a mapping's source group as the
environment reports them (empty when the lookup fails). -/
def mappingMembers (env : SyncEnv) (m : GroupMapping) : Finset String :=
  match env.getGroupMembers m.okta_group with
  | .ok members => oktaEmails members
  | .error _ => ∅

/-- One add-loop iteration ends in `users_added += 1`: the user exists
and (in a live run) the add call succeeds. -/
def addSucceeds (env : SyncEnv) (dry : Bool) (tid : Nat)
    (email : String) : Bool :=
  match env.getUserByEmail email with
  | .ok (some user) => dry || env.addUserToTeam tid user.id
  | _ => false

/-- One add-loop iteration ends in `errors += 1`: the lookup raised, or
the user exists and the live add call failed. -/
def addFails (env : SyncEnv) (dry : Bool) (tid : Nat)
    (email : String) : Bool :=
  match env.getUserByEmail email with
  | .error _ => true
  | .ok none => false
  | .ok (some user) => !dry && !(env.addUserToTeam tid user.id)

/-- The mutation call one add-loop iteration issues, if any. -/
def addTrace (env : SyncEnv) (dry : Bool) (tid : Nat)
    (email : String) : Option (Mutation × Bool) :=
  match env.getUserByEmail email with
  | .ok (some user) =>
      if dry then none
      else some (.addToTeam tid user.id, env.addUserToTeam tid user.id)
  | _ => none

/-- One remove-loop iteration ends in `users_removed += 1`. -/
def removeSucceeds (env : SyncEnv) (dry : Bool) (tid : Nat)
    (members : List TeamMember) (email : String) : Bool :=
  match members.find? (fun m => lower m.email == email) with
  | some mem => dry || env.removeUserFromTeam tid mem.userId
  | none => false

/-- One remove-loop iteration ends in `errors += 1`. -/
def removeFails (env : SyncEnv) (dry : Bool) (tid : Nat)
    (members : List TeamMember) (email : String) : Bool :=
  match members.find? (fun m => lower m.email == email) with
  | some mem => !dry && !(env.removeUserFromTeam tid mem.userId)
  | none => true

/-- The mutation call one remove-loop iteration issues, if any. -/
def removeTrace (env : SyncEnv) (dry : Bool) (tid : Nat)
    (members : List TeamMember) (email : String) :
    Option (Mutation × Bool) :=
  match members.find? (fun m => lower m.email == email) with
  | some mem =>
      if dry then none
      else some (.removeFromTeam tid mem.userId,
        env.removeUserFromTeam tid mem.userId)
  | none => none

/-- One role-loop iteration ends in `roles_updated += 1`: the user exists,
the current role differs literally, and (live) the update succeeds. -/
def roleUpd (env : SyncEnv) (dry : Bool) (p : String × String) : Bool :=
  match env.getUserByEmail p.1 with
  | .ok (some user) => (user.role != p.2) && (dry || env.updateUserRole user.id p.2)
  | _ => false

/-- The identity exists in the sink and its current role differs from the
desired role by exact string comparison (specification side of C4). -/
def roleDiffers (env : SyncEnv) (p : String × String) : Bool :=
  match env.getUserByEmail p.1 with
  | .ok (some user) => user.role != p.2
  | _ => false

/-- The mutation call one role-loop iteration issues, if any. -/
def roleTraceEntry (env : SyncEnv) (dry : Bool) (p : String × String) :
    Option (Mutation × Bool) :=
  match env.getUserByEmail p.1 with
  | .ok (some user) =>
      if user.role != p.2 && !dry then
        some (.updateRole user.id p.2, env.updateUserRole user.id p.2)
      else none
  | _ => none

/-- One admin-sweep iteration ends in `admins_updated += 1`. -/
def adminUpd (env : SyncEnv) (dry : Bool) (s : Finset String)
    (u : OrgUser) : Bool :=
  (u.isGrafanaAdmin != decide (lower u.email ∈ s)) &&
    (dry || env.setUserAdminPermission u.userId (decide (lower u.email ∈ s)))

/-- The mutation call one admin-sweep iteration issues, if any. -/
def adminTraceEntry (env : SyncEnv) (dry : Bool) (s : Finset String)
    (u : OrgUser) : Option (Mutation × Bool) :=
  if u.isGrafanaAdmin != decide (lower u.email ∈ s) && !dry then
    some (.setAdmin u.userId (decide (lower u.email ∈ s)),
      env.setUserAdminPermission u.userId (decide (lower u.email ∈ s)))
  else none

/-- Pointwise effect of one mapping on one identity's desired-role entry
(the value-level shadow of `track_desired_roles` inside
`sync_group_to_team`). -/
def roleFoldStep (env : SyncEnv) (e : String) (v : Option String)
    (m : GroupMapping) : Option String :=
  if e ∈ mappingMembers env m then
    some (get_highest_role (v.getD "Viewer") m.role)
  else v

/-- The target roles of the mappings whose source group contains the
identity `e` (specification side of claim C3). -/
def relevantRoles (env : SyncEnv) (e : String) (maps : List GroupMapping) :
    List String :=
  (maps.filter (fun m => decide (e ∈ mappingMembers env m))).map
    GroupMapping.role

/-- A concrete valid enumeration of finite string sets, used to
instantiate `SyncEnv.enum` in witnesses: sort the elements. -/
def sortEnum : Finset String → List String := fun s => s.sort (· ≤ ·)

/-- A concrete environment for witnesses: Okta group G1 = {alice}, G2 =
{alice, bob}; teams resolve to id 1 with no members; no Grafana users;
all mutations succeed. -/
def envW : SyncEnv :=
  { getGroupMembers := fun g =>
      if g = "G1" then .ok [⟨⟨"alice@x.com"⟩⟩]
      else if g = "G2" then .ok [⟨⟨"alice@x.com"⟩⟩, ⟨⟨"bob@x.com"⟩⟩]
      else .error ()
    getOrCreateTeam := fun _ => .ok 1
    getTeamMembers := fun _ => .ok []
    getUserByEmail := fun _ => .ok none
    addUserToTeam := fun _ _ => true
    removeUserFromTeam := fun _ _ => true
    updateUserRole := fun _ _ => true
    setUserAdminPermission := fun _ _ => true
    getOrgUsers := .ok []
    enum := sortEnum
    elapsed := 0 }

/-- `envW` with one Grafana user alice (id 7, role Admin). -/
def envW4 : SyncEnv :=
  { envW with
    getUserByEmail := fun e =>
      if e = "alice@x.com" then .ok (some ⟨7, "alice@x.com", "Admin"⟩)
      else .ok none }

/-- Concrete desired-roles dict: alice should be Viewer. -/
def desiredW : List (String × String) := [("alice@x.com", "Viewer")]

/-- `envW` with Okta group G = {a, b, c}, Grafana users a(1), b(2), c(3),
and an add-to-team call that fails exactly for user id 2. -/
def envW6 : SyncEnv :=
  { envW with
    getGroupMembers := fun g =>
      if g = "G" then .ok [⟨⟨"a@x.com"⟩⟩, ⟨⟨"b@x.com"⟩⟩, ⟨⟨"c@x.com"⟩⟩]
      else .error ()
    getUserByEmail := fun e =>
      if e = "a@x.com" then .ok (some ⟨1, "a@x.com", "Viewer"⟩)
      else if e = "b@x.com" then .ok (some ⟨2, "b@x.com", "Viewer"⟩)
      else if e = "c@x.com" then .ok (some ⟨3, "c@x.com", "Viewer"⟩)
      else .ok none
    addUserToTeam := fun _ uid => uid != 2 }

/-- `envW` with admin group AG = {root} and an org roster of root(1, not
admin), old(2, admin), ok(3, not admin). -/
def envW5 : SyncEnv :=
  { envW with
    getGroupMembers := fun g =>
      if g = "AG" then .ok [⟨⟨"root@x.com"⟩⟩] else .error ()
    getOrgUsers := .ok
      [⟨"root@x.com", 1, false⟩, ⟨"old@x.com", 2, true⟩,
        ⟨"ok@x.com", 3, false⟩] }

/-- `envW` with every Okta group lookup and the org roster fetch
failing. -/
def envW10 : SyncEnv :=
  { envW with
    getGroupMembers := fun _ => .error ()
    getOrgUsers := .error () }

/-- Extract the target user id of a set-admin mutation. -/
def setAdminUserId : Mutation → Option Nat
  | .setAdmin uid _ => some uid
  | _ => none

/-- Concrete mapping list: G1 grants Viewer on T1, G2 grants Admin on
T2. -/
def mapsW : List GroupMapping :=
  [⟨"G1", "T1", "Viewer"⟩, ⟨"G2", "T2", "Admin"⟩]

/-- `mapsW` in the opposite processing order. -/
def mapsW2 : List GroupMapping :=
  [⟨"G2", "T2", "Admin"⟩, ⟨"G1", "T1", "Viewer"⟩]

/-- Concrete Okta member list for witnesses: {A@X.com, b@x.com, c@x.com}. -/
def oktaW : List OktaMember :=
  [⟨⟨"A@X.com"⟩⟩, ⟨⟨"b@x.com"⟩⟩, ⟨⟨"c@x.com"⟩⟩]

/-- A permutation of `oktaW`. -/
def oktaW2 : List OktaMember :=
  [⟨⟨"b@x.com"⟩⟩, ⟨⟨"c@x.com"⟩⟩, ⟨⟨"A@X.com"⟩⟩]

/-- Concrete Grafana team member list for witnesses:
{B@x.com, c@x.com, d@x.com}. -/
def grafW : List TeamMember :=
  [⟨"B@x.com", 2⟩, ⟨"c@x.com", 3⟩, ⟨"d@x.com", 4⟩]

/-- A permutation of `grafW`. -/
def grafW2 : List TeamMember :=
  [⟨"d@x.com", 4⟩, ⟨"B@x.com", 2⟩, ⟨"c@x.com", 3⟩]

/-- One orchestration-tick scenario for the idempotence claim: the fixed
Okta state (`groups`), the set-iteration order, the measured duration, the
initial sink state, one configured mapping and the admin group list. -/
structure TickCfg where
  groups : String → Except Unit (List OktaMember)
  enum : Finset String → List String
  el : Rat
  st0 : SinkState
  g : String
  t : String
  role : String
  gs : List String

/-- First tick, membership pass (`sync_group_to_team` live). -/
def TickCfg.out1 (c : TickCfg) : SyncOutcome :=
  sync_group_to_team (envOf c.groups c.enum c.el c.st0) false c.g c.t
    c.role []

/-- Sink after the first membership pass's mutations are applied. -/
def TickCfg.st1 (c : TickCfg) : SinkState :=
  applyTrace c.st0 c.out1.trace

/-- First tick, role pass (`update_user_roles` live). -/
def TickCfg.rp1 (c : TickCfg) : Nat × List (Mutation × Bool) :=
  update_user_roles (envOf c.groups c.enum c.el c.st1) false c.out1.desired

/-- Sink after the first role pass's mutations are applied. -/
def TickCfg.st2 (c : TickCfg) : SinkState :=
  applyTrace c.st1 c.rp1.2

/-- First tick, admin pass (`sync_admin_privileges` live). -/
def TickCfg.ap1 (c : TickCfg) : Nat × List (Mutation × Bool) :=
  sync_admin_privileges (envOf c.groups c.enum c.el c.st2) false c.gs

/-- Sink after the whole first tick has been applied. -/
def TickCfg.st3 (c : TickCfg) : SinkState :=
  applyTrace c.st2 c.ap1.2

/-- Second tick, membership pass, on the resulting sink with no source
change. -/
def TickCfg.out2 (c : TickCfg) : SyncOutcome :=
  sync_group_to_team (envOf c.groups c.enum c.el c.st3) false c.g c.t
    c.role []

/-- Concrete Okta group content for the idempotence scenario. -/
def oktaC2 : List OktaMember :=
  [⟨⟨"Alice@Example.com"⟩⟩, ⟨⟨"bob@example.com"⟩⟩]

/-- Concrete tick configuration for the idempotence scenario: one mapped
group, one admin group, a roster of three users one of whom must leave
the team. -/
def cfgW : TickCfg :=
  { groups := fun g => if g = "G" then .ok oktaC2 else .error ()
    enum := sortEnum
    el := 1
    st0 :=
      { users := [⟨1, "alice@example.com", "Viewer", false⟩,
                  ⟨2, "bob@example.com", "Editor", true⟩,
                  ⟨3, "carol@example.com", "Viewer", false⟩]
        team := [⟨"carol@example.com", 3⟩] }
    g := "G"
    t := "T"
    role := "Editor"
    gs := ["G"] }

/-! ### Helper lemmas -/

theorem mem_oktaEmails (members : List OktaMember) (e : String) :
    e ∈ oktaEmails members ↔ ∃ m ∈ members, lower m.profile.email = e := by
  simp [oktaEmails]

theorem mem_grafanaEmails (members : List TeamMember) (e : String) :
    e ∈ grafanaEmails members ↔ ∃ m ∈ members, lower m.email = e := by
  simp [grafanaEmails]

theorem oktaEmails_perm {l1 l2 : List OktaMember} (h : List.Perm l1 l2) :
    oktaEmails l1 = oktaEmails l2 := by
  ext e
  simp only [oktaEmails, List.mem_toFinset]
  exact (h.map _).mem_iff

theorem grafanaEmails_perm {l1 l2 : List TeamMember} (h : List.Perm l1 l2) :
    grafanaEmails l1 = grafanaEmails l2 := by
  ext e
  simp only [grafanaEmails, List.mem_toFinset]
  exact (h.map _).mem_iff

theorem dictGet_cons (p : String × String) (d : List (String × String))
    (k : String) :
    dictGet (p :: d) k = if p.1 = k then some p.2 else dictGet d k := by
  by_cases h : p.1 = k
  · simp [dictGet, List.find?_cons_of_pos, h]
  · simp [dictGet, List.find?_cons_of_neg, h]

theorem dictGet_dictSet_self (d : List (String × String)) (k v : String) :
    dictGet (dictSet d k v) k = some v := by
  induction d with
  | nil => simp [dictSet, dictGet]
  | cons p d ih =>
    by_cases hp : p.1 = k
    · have hfind : (List.find? (fun q => q.1 == k) (p :: d)).isSome := by
        simp [List.find?_cons_of_pos, hp]
      simp only [dictSet, hfind, if_true]
      simp [dictGet_cons, hp]
    · have hfind : List.find? (fun q => q.1 == k) (p :: d) =
          List.find? (fun q => q.1 == k) d := by
        simp [List.find?_cons_of_neg, hp]
      by_cases hd : (List.find? (fun q => q.1 == k) d).isSome
      · have : dictSet (p :: d) k v =
            p :: d.map (fun q => if q.1 == k then (k, v) else q) := by
          simp only [dictSet, hfind, hd, if_true, List.map_cons]
          congr 1
          simp [hp]
        rw [this, dictGet_cons, if_neg hp]
        have hset : dictSet d k v =
            d.map (fun q => if q.1 == k then (k, v) else q) := by
          simp only [dictSet, hd, if_true]
        rw [← hset, ih]
      · have : dictSet (p :: d) k v = p :: dictSet d k v := by
          simp only [dictSet, hfind, hd]
          simp only [Bool.false_eq_true, if_false, List.cons_append]
        rw [this, dictGet_cons, if_neg hp, ih]

theorem dictGet_map_upd_ne (d : List (String × String)) (k v k2 : String)
    (hne : k ≠ k2) :
    dictGet (d.map (fun q => if q.1 == k then (k, v) else q)) k2 =
      dictGet d k2 := by
  induction d with
  | nil => rfl
  | cons p d ih =>
    simp only [List.map_cons]
    by_cases hp : p.1 = k
    · simp only [hp, beq_self_eq_true, if_true]
      rw [dictGet_cons, dictGet_cons]
      simp only [hne, hp, if_false]
      exact ih
    · have : (p.1 == k) = false := by simp [hp]
      simp only [this, Bool.false_eq_true, if_false]
      rw [dictGet_cons, dictGet_cons]
      by_cases hp2 : p.1 = k2
      · simp [hp2]
      · simp only [hp2, if_false]
        exact ih

theorem dictGet_append_single (d : List (String × String)) (k v k2 : String)
    (hne : k ≠ k2) : dictGet (d ++ [(k, v)]) k2 = dictGet d k2 := by
  induction d with
  | nil => simp [dictGet_cons, dictGet, hne]
  | cons p d ih =>
    rw [List.cons_append, dictGet_cons, dictGet_cons, ih]

theorem dictGet_dictSet_ne (d : List (String × String)) (k v k2 : String)
    (hne : k ≠ k2) : dictGet (dictSet d k v) k2 = dictGet d k2 := by
  by_cases hd : (List.find? (fun q => q.1 == k) d).isSome
  · simp only [dictSet, hd, if_true]
    exact dictGet_map_upd_ne d k v k2 hne
  · simp only [dictSet, hd, Bool.false_eq_true, if_false]
    exact dictGet_append_single d k v k2 hne


/-- C1: `sync_group_to_team` computes the membership diff on lower-cased
emails as plain set differences: `to_add` is exactly the source emails
minus the sink emails and `to_remove` exactly the sink emails minus the
source emails, independent of the order in which either API returns
members, and two emails differing only in letter case produce no diff
entry. -/
theorem membership_diff_is_plain_set_difference
    (okta_members okta2 : List OktaMember)
    (grafana_members grafana2 : List TeamMember)
    (hokta : List.Perm okta_members okta2)
    (hgraf : List.Perm grafana_members grafana2) :
    (∀ e, e ∈ sync_to_add okta_members grafana_members ↔
      ((∃ m ∈ okta_members, lower m.profile.email = e) ∧
        ∀ m ∈ grafana_members, lower m.email ≠ e)) ∧
    (∀ e, e ∈ sync_to_remove okta_members grafana_members ↔
      ((∃ m ∈ grafana_members, lower m.email = e) ∧
        ∀ m ∈ okta_members, lower m.profile.email ≠ e)) ∧
    sync_to_add okta2 grafana2 = sync_to_add okta_members grafana_members ∧
    sync_to_remove okta2 grafana2 =
      sync_to_remove okta_members grafana_members ∧
    (∀ m1 ∈ okta_members, ∀ m2 ∈ grafana_members,
      lower m1.profile.email = lower m2.email →
        lower m1.profile.email ∉ sync_to_add okta_members grafana_members ∧
        lower m2.email ∉ sync_to_remove okta_members grafana_members) := by
  refine ⟨?_, ?_, ?_, ?_, ?_⟩
  · intro e
    simp only [sync_to_add, Finset.mem_sdiff, mem_oktaEmails, mem_grafanaEmails]
    push_neg
    exact Iff.rfl
  · intro e
    simp only [sync_to_remove, Finset.mem_sdiff, mem_oktaEmails,
      mem_grafanaEmails]
    push_neg
    exact Iff.rfl
  · simp [sync_to_add, oktaEmails_perm hokta, grafanaEmails_perm hgraf]
  · simp [sync_to_remove, oktaEmails_perm hokta, grafanaEmails_perm hgraf]
  · intro m1 hm1 m2 hm2 hcase
    constructor
    · simp only [sync_to_add, Finset.mem_sdiff, mem_grafanaEmails, not_and,
        not_not]
      intro _
      exact ⟨m2, hm2, hcase.symm⟩
    · simp only [sync_to_remove, Finset.mem_sdiff, mem_oktaEmails, not_and,
        not_not]
      intro _
      exact ⟨m1, hm1, hcase⟩

/-- Witness for C1 at a concrete input: source {a,b,c}, sink {b,c,d} (with
case differences) gives to_add {a@x.com}, to_remove {d@x.com}, invariant
under reordering both inputs. -/
theorem membership_diff_is_plain_set_difference_witness :
    List.Perm oktaW oktaW2 ∧ List.Perm grafW grafW2 ∧
    sync_to_add oktaW grafW = {"a@x.com"} ∧
    sync_to_remove oktaW grafW = {"d@x.com"} ∧
    sync_to_add oktaW2 grafW2 = sync_to_add oktaW grafW := by
  refine ⟨by decide, by decide, by decide, by decide, ?_⟩
  exact (membership_diff_is_plain_set_difference oktaW oktaW2 grafW grafW2
    (by decide) (by decide)).2.2.1

theorem sortEnum_valid : ValidEnum sortEnum := by
  intro s
  exact ⟨Finset.sort_nodup _ s, Finset.sort_toFinset _ s⟩

theorem get_highest_role_spec (a b : String) :
    (get_highest_role a b = a ∨ get_highest_role a b = b) ∧
    ROLE_HIERARCHY (get_highest_role a b) =
      max (ROLE_HIERARCHY a) (ROLE_HIERARCHY b) := by
  unfold get_highest_role
  split_ifs with h
  · refine ⟨Or.inl rfl, ?_⟩
    rw [Nat.max_def]
    split_ifs <;> omega
  · refine ⟨Or.inr rfl, ?_⟩
    rw [Nat.max_def]
    split_ifs <;> omega

theorem ROLE_HIERARCHY_viewer : ROLE_HIERARCHY "Viewer" = 1 := by
  decide

theorem ROLE_HIERARCHY_inj (a b : String)
    (h : ROLE_HIERARCHY a = ROLE_HIERARCHY b) (h1 : 1 ≤ ROLE_HIERARCHY a) :
    a = b := by
  unfold ROLE_HIERARCHY at h h1
  split_ifs at h h1 <;> simp_all

theorem dictGet_trackFold (role e : String) :
    ∀ l : List String, l.Nodup → ∀ d : List (String × String),
      dictGet (l.foldl (fun acc email => dictSet acc email
          (get_highest_role ((dictGet acc email).getD "Viewer") role)) d) e =
        if e ∈ l then
          some (get_highest_role ((dictGet d e).getD "Viewer") role)
        else dictGet d e := by
  intro l
  induction l with
  | nil => intro _ d; simp
  | cons a l ih =>
    intro hnodup d
    rcases List.nodup_cons.mp hnodup with ⟨ha, hl⟩
    simp only [List.foldl_cons]
    rw [ih hl]
    by_cases he : e = a
    · subst he
      rw [if_neg ha, dictGet_dictSet_self]
      simp [List.mem_cons]
    · rw [dictGet_dictSet_ne _ _ _ _ (fun h => he h.symm)]
      by_cases hel : e ∈ l
      · simp [List.mem_cons, hel]
      · simp [List.mem_cons, he, hel]

theorem dictGet_track_desired_roles (enum : Finset String → List String)
    (henum : ValidEnum enum) (s : Finset String) (role : String)
    (d : List (String × String)) (e : String) :
    dictGet (track_desired_roles enum s role d) e =
      if e ∈ s then
        some (get_highest_role ((dictGet d e).getD "Viewer") role)
      else dictGet d e := by
  rcases henum s with ⟨hnodup, hset⟩
  unfold track_desired_roles
  rw [dictGet_trackFold role e (enum s) hnodup d]
  by_cases h : e ∈ s
  · rw [if_pos h, if_pos (by rw [← List.mem_toFinset, hset]; exact h)]
  · rw [if_neg h, if_neg (by rw [← List.mem_toFinset, hset]; exact h)]

theorem sync_desired_get (env : SyncEnv) (dry : Bool)
    (henum : ValidEnum env.enum) (m : GroupMapping)
    (hfetch : fetchOk env m = true) (d : List (String × String))
    (e : String) :
    dictGet
        (sync_group_to_team env dry m.okta_group m.grafana_team m.role
          d).desired e =
      roleFoldStep env e (dictGet d e) m := by
  unfold fetchOk at hfetch
  unfold sync_group_to_team
  cases hg : env.getGroupMembers m.okta_group with
  | error u => rw [hg] at hfetch; simp at hfetch
  | ok members =>
    rw [hg] at hfetch
    dsimp only at hfetch ⊢
    cases ht : env.getOrCreateTeam m.grafana_team with
    | error u => rw [ht] at hfetch; simp at hfetch
    | ok tid =>
      rw [ht] at hfetch
      dsimp only at hfetch ⊢
      cases hm : env.getTeamMembers tid with
      | error u => rw [hm] at hfetch; simp at hfetch
      | ok mems =>
        dsimp only
        rw [dictGet_track_desired_roles env.enum henum _ _ d e]
        unfold roleFoldStep mappingMembers
        rw [hg]

theorem runTick_desired_get (env : SyncEnv) (dry : Bool)
    (henum : ValidEnum env.enum) :
    ∀ (maps : List GroupMapping), (∀ m ∈ maps, fetchOk env m = true) →
      ∀ (d : List (String × String)) (e : String),
        dictGet (runTick env dry maps d) e =
          maps.foldl (roleFoldStep env e) (dictGet d e) := by
  intro maps
  induction maps with
  | nil => intro _ d e; rfl
  | cons m maps ih =>
    intro hfetch d e
    have hm := hfetch m (List.mem_cons_self m maps)
    have hrest : ∀ m2 ∈ maps, fetchOk env m2 = true := by
      intro m2 hm2
      exact hfetch m2 (List.mem_cons_of_mem m hm2)
    unfold runTick
    simp only [List.foldl_cons]
    have step := sync_desired_get env dry henum m hm d e
    rw [← step]
    exact ih hrest _ e

theorem relevantRoles_cons_pos (env : SyncEnv) (e : String)
    (m : GroupMapping) (maps : List GroupMapping)
    (h : e ∈ mappingMembers env m) :
    relevantRoles env e (m :: maps) = m.role :: relevantRoles env e maps := by
  simp [relevantRoles, List.filter_cons, h]

theorem relevantRoles_cons_neg (env : SyncEnv) (e : String)
    (m : GroupMapping) (maps : List GroupMapping)
    (h : e ∉ mappingMembers env m) :
    relevantRoles env e (m :: maps) = relevantRoles env e maps := by
  simp [relevantRoles, List.filter_cons, h]

theorem roleFold_some (env : SyncEnv) (e : String) :
    ∀ (maps : List GroupMapping) (r : String),
      ∃ r2, maps.foldl (roleFoldStep env e) (some r) = some r2 ∧
        (r2 = r ∨ r2 ∈ relevantRoles env e maps) ∧
        ROLE_HIERARCHY r ≤ ROLE_HIERARCHY r2 ∧
        ∀ r3 ∈ relevantRoles env e maps,
          ROLE_HIERARCHY r3 ≤ ROLE_HIERARCHY r2 := by
  intro maps
  induction maps with
  | nil =>
    intro r
    exact ⟨r, rfl, Or.inl rfl, le_refl _, by simp [relevantRoles]⟩
  | cons m maps ih =>
    intro r
    by_cases hrel : e ∈ mappingMembers env m
    · have hstep : roleFoldStep env e (some r) m =
          some (get_highest_role r m.role) := by
        unfold roleFoldStep
        rw [if_pos hrel]
        rfl
      obtain ⟨r2, hfold, hmem, hle, hmax⟩ := ih (get_highest_role r m.role)
      refine ⟨r2, ?_, ?_, ?_, ?_⟩
      · simp only [List.foldl_cons, hstep]
        exact hfold
      · rcases hmem with h | h
        · rcases (get_highest_role_spec r m.role).1 with hg | hg
          · exact Or.inl (h.trans hg)
          · refine Or.inr ?_
            rw [h, hg, relevantRoles_cons_pos env e m maps hrel]
            exact List.mem_cons_self _ _
        · refine Or.inr ?_
          rw [relevantRoles_cons_pos env e m maps hrel]
          exact List.mem_cons_of_mem _ h
      · have := (get_highest_role_spec r m.role).2
        omega
      · intro r3 hr3
        rw [relevantRoles_cons_pos env e m maps hrel] at hr3
        rcases List.mem_cons.mp hr3 with h | h
        · subst h
          have := (get_highest_role_spec r m.role).2
          omega
        · exact hmax r3 h
    · have hstep : roleFoldStep env e (some r) m = some r := by
        unfold roleFoldStep
        rw [if_neg hrel]
      have hrelcons : relevantRoles env e (m :: maps) =
          relevantRoles env e maps :=
        relevantRoles_cons_neg env e m maps hrel
      obtain ⟨r2, hfold, hmem, hle, hmax⟩ := ih r
      refine ⟨r2, ?_, ?_, hle, ?_⟩
      · simp only [List.foldl_cons, hstep]
        exact hfold
      · rw [hrelcons]
        exact hmem
      · rw [hrelcons]
        exact hmax

theorem roleFold_none (env : SyncEnv) (e : String) :
    ∀ maps : List GroupMapping,
      (relevantRoles env e maps = [] ∧
        maps.foldl (roleFoldStep env e) none = none) ∨
      (∃ r, maps.foldl (roleFoldStep env e) none = some r ∧
        r ∈ "Viewer" :: relevantRoles env e maps ∧
        ∀ r2 ∈ "Viewer" :: relevantRoles env e maps,
          ROLE_HIERARCHY r2 ≤ ROLE_HIERARCHY r) := by
  intro maps
  induction maps with
  | nil => exact Or.inl ⟨by simp [relevantRoles], rfl⟩
  | cons m maps ih =>
    by_cases hrel : e ∈ mappingMembers env m
    · have hstep : roleFoldStep env e none m =
          some (get_highest_role "Viewer" m.role) := by
        unfold roleFoldStep
        rw [if_pos hrel]
        rfl
      have hrelcons : relevantRoles env e (m :: maps) =
          m.role :: relevantRoles env e maps :=
        relevantRoles_cons_pos env e m maps hrel
      obtain ⟨r2, hfold, hmem, hle, hmax⟩ :=
        roleFold_some env e maps (get_highest_role "Viewer" m.role)
      refine Or.inr ⟨r2, ?_, ?_, ?_⟩
      · simp only [List.foldl_cons, hstep]
        exact hfold
      · rw [hrelcons]
        rcases hmem with h | h
        · rcases (get_highest_role_spec "Viewer" m.role).1 with hg | hg
          · rw [h, hg]
            exact List.mem_cons_self _ _
          · rw [h, hg]
            exact List.mem_cons_of_mem _ (List.mem_cons_self _ _)
        · exact List.mem_cons_of_mem _ (List.mem_cons_of_mem _ h)
      · rw [hrelcons]
        intro r3 hr3
        have hgv := (get_highest_role_spec "Viewer" m.role).2
        rcases List.mem_cons.mp hr3 with h | hr3
        · subst h
          omega
        · rcases List.mem_cons.mp hr3 with h | h
          · subst h
            omega
          · exact hmax r3 h
    · have hstep : roleFoldStep env e none m = none := by
        unfold roleFoldStep
        rw [if_neg hrel]
      have hrelcons : relevantRoles env e (m :: maps) =
          relevantRoles env e maps :=
        relevantRoles_cons_neg env e m maps hrel
      simp only [List.foldl_cons, hstep, hrelcons]
      exact ih

/-- C3: after all the `sync_group_to_team` calls of one tick, the
`desired_roles` entry of an identity contained in at least one mapping's
source group is the maximum, under Admin(3) > Editor(2) > Viewer(1), of
the target roles of every mapping whose source group contains it
(floored at Viewer), independent of the processing order of the
mappings. -/
theorem desired_role_is_max_across_mappings
    (env : SyncEnv) (dry dry2 : Bool) (maps maps2 : List GroupMapping)
    (e : String)
    (henum : ValidEnum env.enum)
    (hfetch : ∀ m ∈ maps, fetchOk env m = true)
    (hperm : List.Perm maps maps2)
    (hrel : ∃ m ∈ maps, e ∈ mappingMembers env m) :
    ∃ r, dictGet (runTick env dry maps []) e = some r ∧
      r ∈ "Viewer" :: relevantRoles env e maps ∧
      (∀ r2 ∈ "Viewer" :: relevantRoles env e maps,
        ROLE_HIERARCHY r2 ≤ ROLE_HIERARCHY r) ∧
      dictGet (runTick env dry2 maps2 []) e = some r := by
  have hfetch2 : ∀ m ∈ maps2, fetchOk env m = true := by
    intro m hm
    exact hfetch m (hperm.mem_iff.mpr hm)
  have h1 := runTick_desired_get env dry henum maps hfetch [] e
  have h2 := runTick_desired_get env dry2 henum maps2 hfetch2 [] e
  have hget : dictGet [] e = none := rfl
  rw [hget] at h1 h2
  have hpermRel : List.Perm (relevantRoles env e maps)
      (relevantRoles env e maps2) :=
    (hperm.filter _).map _
  have hne : relevantRoles env e maps ≠ [] := by
    rcases hrel with ⟨m, hm, hmem⟩
    intro hempty
    have : m.role ∈ relevantRoles env e maps := by
      simp only [relevantRoles, List.mem_map]
      exact ⟨m, List.mem_filter.mpr ⟨hm, by simpa using hmem⟩, rfl⟩
    rw [hempty] at this
    exact List.not_mem_nil _ this
  rcases roleFold_none env e maps with ⟨hempty, _⟩ | ⟨r, hfold, hmem, hmax⟩
  · exact absurd hempty hne
  rcases roleFold_none env e maps2 with ⟨hempty2, _⟩ | ⟨r2, hfold2, hmem2, hmax2⟩
  · exact absurd (hempty2 ▸ hpermRel).eq_nil hne
  refine ⟨r, by rw [h1]; exact hfold, hmem, hmax, ?_⟩
  have hrr2 : r = r2 := by
    have hm1 : ROLE_HIERARCHY r ≤ ROLE_HIERARCHY r2 := by
      apply hmax2
      rcases List.mem_cons.mp hmem with h | h
      · rw [h]; exact List.mem_cons_self _ _
      · exact List.mem_cons_of_mem _ (hpermRel.mem_iff.mp h)
    have hm2 : ROLE_HIERARCHY r2 ≤ ROLE_HIERARCHY r := by
      apply hmax
      rcases List.mem_cons.mp hmem2 with h | h
      · rw [h]; exact List.mem_cons_self _ _
      · exact List.mem_cons_of_mem _ (hpermRel.mem_iff.mpr h)
    have h1le : 1 ≤ ROLE_HIERARCHY r := by
      have := hmax "Viewer" (List.mem_cons_self _ _)
      rw [ROLE_HIERARCHY_viewer] at this
      omega
    exact ROLE_HIERARCHY_inj r r2 (le_antisymm hm1 hm2) h1le
  rw [h2, hrr2]
  exact hfold2

/-- Witness for C3: alice is in G1 (Viewer on T1) and G2 (Admin on T2);
after the tick her desired-role entry is the hierarchy maximum, whichever
order the two mappings are processed in. -/
theorem desired_role_is_max_across_mappings_witness :
    ∃ r, dictGet (runTick envW false mapsW []) "alice@x.com" = some r ∧
      r ∈ "Viewer" :: relevantRoles envW "alice@x.com" mapsW ∧
      (∀ r2 ∈ "Viewer" :: relevantRoles envW "alice@x.com" mapsW,
        ROLE_HIERARCHY r2 ≤ ROLE_HIERARCHY r) ∧
      dictGet (runTick envW false mapsW2 []) "alice@x.com" = some r :=
  desired_role_is_max_across_mappings envW false false mapsW mapsW2
    "alice@x.com" sortEnum_valid (by decide) (by decide)
    ⟨⟨"G1", "T1", "Viewer"⟩, by decide, by decide⟩

theorem addLoop_users_added (env : SyncEnv) (dry : Bool) (tid : Nat) :
    ∀ (l : List String) (acc : SyncMetrics × List (Mutation × Bool)),
      (l.foldl (addStep env dry tid) acc).1.users_added =
        acc.1.users_added + (l.filter (addSucceeds env dry tid)).length := by
  intro l
  induction l with
  | nil => intro acc; simp
  | cons e l ih =>
    intro acc
    rw [List.foldl_cons, ih, List.filter_cons]
    cases hu : env.getUserByEmail e with
    | error u => simp [addStep, addSucceeds, hu]
    | ok ou =>
      cases ou with
      | none => simp [addStep, addSucceeds, hu]
      | some user =>
        cases dry with
        | true =>
          simp [addStep, addSucceeds, hu]
          omega
        | false =>
          cases hadd : env.addUserToTeam tid user.id with
          | true =>
            simp [addStep, addSucceeds, hu, hadd]
            omega
          | false => simp [addStep, addSucceeds, hu, hadd]

theorem addLoop_users_removed (env : SyncEnv) (dry : Bool) (tid : Nat) :
    ∀ (l : List String) (acc : SyncMetrics × List (Mutation × Bool)),
      (l.foldl (addStep env dry tid) acc).1.users_removed =
        acc.1.users_removed := by
  intro l
  induction l with
  | nil => intro acc; rfl
  | cons e l ih =>
    intro acc
    rw [List.foldl_cons, ih]
    cases hu : env.getUserByEmail e with
    | error u => simp [addStep, hu]
    | ok ou =>
      cases ou with
      | none => simp [addStep, hu]
      | some user =>
        cases dry with
        | true => simp [addStep, hu]
        | false =>
          cases hadd : env.addUserToTeam tid user.id with
          | true => simp [addStep, hu, hadd]
          | false => simp [addStep, hu, hadd]

theorem addLoop_errors (env : SyncEnv) (dry : Bool) (tid : Nat) :
    ∀ (l : List String) (acc : SyncMetrics × List (Mutation × Bool)),
      (l.foldl (addStep env dry tid) acc).1.errors =
        acc.1.errors + (l.filter (addFails env dry tid)).length := by
  intro l
  induction l with
  | nil => intro acc; simp
  | cons e l ih =>
    intro acc
    rw [List.foldl_cons, ih, List.filter_cons]
    cases hu : env.getUserByEmail e with
    | error u =>
      simp [addStep, addFails, hu]
      omega
    | ok ou =>
      cases ou with
      | none => simp [addStep, addFails, hu]
      | some user =>
        cases dry with
        | true => simp [addStep, addFails, hu]
        | false =>
          cases hadd : env.addUserToTeam tid user.id with
          | true => simp [addStep, addFails, hu, hadd]
          | false =>
            simp [addStep, addFails, hu, hadd]
            omega

theorem addLoop_trace (env : SyncEnv) (dry : Bool) (tid : Nat) :
    ∀ (l : List String) (acc : SyncMetrics × List (Mutation × Bool)),
      (l.foldl (addStep env dry tid) acc).2 =
        acc.2 ++ l.filterMap (addTrace env dry tid) := by
  intro l
  induction l with
  | nil => intro acc; simp
  | cons e l ih =>
    intro acc
    rw [List.foldl_cons, ih, List.filterMap_cons]
    cases hu : env.getUserByEmail e with
    | error u => simp [addStep, addTrace, hu]
    | ok ou =>
      cases ou with
      | none => simp [addStep, addTrace, hu]
      | some user =>
        cases dry with
        | true => simp [addStep, addTrace, hu]
        | false =>
          cases hadd : env.addUserToTeam tid user.id with
          | true => simp [addStep, addTrace, hu, hadd]
          | false => simp [addStep, addTrace, hu, hadd]

theorem removeLoop_users_removed (env : SyncEnv) (dry : Bool) (tid : Nat)
    (members : List TeamMember) :
    ∀ (l : List String) (acc : SyncMetrics × List (Mutation × Bool)),
      (l.foldl (removeStep env dry tid members) acc).1.users_removed =
        acc.1.users_removed +
          (l.filter (removeSucceeds env dry tid members)).length := by
  intro l
  induction l with
  | nil => intro acc; simp
  | cons e l ih =>
    intro acc
    rw [List.foldl_cons, ih, List.filter_cons]
    cases hf : members.find? (fun m => lower m.email == e) with
    | none => simp [removeStep, removeSucceeds, hf]
    | some mem =>
      cases dry with
      | true =>
        simp [removeStep, removeSucceeds, hf]
        omega
      | false =>
        cases hrem : env.removeUserFromTeam tid mem.userId with
        | true =>
          simp [removeStep, removeSucceeds, hf, hrem]
          omega
        | false => simp [removeStep, removeSucceeds, hf, hrem]

theorem removeLoop_users_added (env : SyncEnv) (dry : Bool) (tid : Nat)
    (members : List TeamMember) :
    ∀ (l : List String) (acc : SyncMetrics × List (Mutation × Bool)),
      (l.foldl (removeStep env dry tid members) acc).1.users_added =
        acc.1.users_added := by
  intro l
  induction l with
  | nil => intro acc; rfl
  | cons e l ih =>
    intro acc
    rw [List.foldl_cons, ih]
    cases hf : members.find? (fun m => lower m.email == e) with
    | none => simp [removeStep, hf]
    | some mem =>
      cases dry with
      | true => simp [removeStep, hf]
      | false =>
        cases hrem : env.removeUserFromTeam tid mem.userId with
        | true => simp [removeStep, hf, hrem]
        | false => simp [removeStep, hf, hrem]

theorem removeLoop_errors (env : SyncEnv) (dry : Bool) (tid : Nat)
    (members : List TeamMember) :
    ∀ (l : List String) (acc : SyncMetrics × List (Mutation × Bool)),
      (l.foldl (removeStep env dry tid members) acc).1.errors =
        acc.1.errors +
          (l.filter (removeFails env dry tid members)).length := by
  intro l
  induction l with
  | nil => intro acc; simp
  | cons e l ih =>
    intro acc
    rw [List.foldl_cons, ih, List.filter_cons]
    cases hf : members.find? (fun m => lower m.email == e) with
    | none =>
      simp [removeStep, removeFails, hf]
      omega
    | some mem =>
      cases dry with
      | true => simp [removeStep, removeFails, hf]
      | false =>
        cases hrem : env.removeUserFromTeam tid mem.userId with
        | true => simp [removeStep, removeFails, hf, hrem]
        | false =>
          simp [removeStep, removeFails, hf, hrem]
          omega

theorem removeLoop_trace (env : SyncEnv) (dry : Bool) (tid : Nat)
    (members : List TeamMember) :
    ∀ (l : List String) (acc : SyncMetrics × List (Mutation × Bool)),
      (l.foldl (removeStep env dry tid members) acc).2 =
        acc.2 ++ l.filterMap (removeTrace env dry tid members) := by
  intro l
  induction l with
  | nil => intro acc; simp
  | cons e l ih =>
    intro acc
    rw [List.foldl_cons, ih, List.filterMap_cons]
    cases hf : members.find? (fun m => lower m.email == e) with
    | none => simp [removeStep, removeTrace, hf]
    | some mem =>
      cases dry with
      | true => simp [removeStep, removeTrace, hf]
      | false =>
        cases hrem : env.removeUserFromTeam tid mem.userId with
        | true => simp [removeStep, removeTrace, hf, hrem]
        | false => simp [removeStep, removeTrace, hf, hrem]

theorem addLoop_roles_updated (env : SyncEnv) (dry : Bool) (tid : Nat) :
    ∀ (l : List String) (acc : SyncMetrics × List (Mutation × Bool)),
      (l.foldl (addStep env dry tid) acc).1.roles_updated =
        acc.1.roles_updated := by
  intro l
  induction l with
  | nil => intro acc; rfl
  | cons e l ih =>
    intro acc
    rw [List.foldl_cons, ih]
    cases hu : env.getUserByEmail e with
    | error u => simp [addStep, hu]
    | ok ou =>
      cases ou with
      | none => simp [addStep, hu]
      | some user =>
        cases dry with
        | true => simp [addStep, hu]
        | false =>
          cases hadd : env.addUserToTeam tid user.id with
          | true => simp [addStep, hu, hadd]
          | false => simp [addStep, hu, hadd]

theorem removeLoop_roles_updated (env : SyncEnv) (dry : Bool) (tid : Nat)
    (members : List TeamMember) :
    ∀ (l : List String) (acc : SyncMetrics × List (Mutation × Bool)),
      (l.foldl (removeStep env dry tid members) acc).1.roles_updated =
        acc.1.roles_updated := by
  intro l
  induction l with
  | nil => intro acc; rfl
  | cons e l ih =>
    intro acc
    rw [List.foldl_cons, ih]
    cases hf : members.find? (fun m => lower m.email == e) with
    | none => simp [removeStep, hf]
    | some mem =>
      cases dry with
      | true => simp [removeStep, hf]
      | false =>
        cases hrem : env.removeUserFromTeam tid mem.userId with
        | true => simp [removeStep, hf, hrem]
        | false => simp [removeStep, hf, hrem]

theorem roleLoop_count (env : SyncEnv) (dry : Bool) :
    ∀ (desired : List (String × String)) (acc : Nat × List (Mutation × Bool)),
      (desired.foldl (roleStep env dry) acc).1 =
        acc.1 + (desired.filter (roleUpd env dry)).length := by
  intro desired
  induction desired with
  | nil => intro acc; simp
  | cons p l ih =>
    intro acc
    rw [List.foldl_cons, ih, List.filter_cons]
    cases hu : env.getUserByEmail p.1 with
    | error u => simp [roleStep, roleUpd, hu]
    | ok ou =>
      cases ou with
      | none => simp [roleStep, roleUpd, hu]
      | some user =>
        by_cases hr : user.role = p.2
        · simp [roleStep, roleUpd, hu, hr]
        · cases dry with
          | true =>
            simp [roleStep, roleUpd, hu, hr]
            omega
          | false =>
            cases hupd : env.updateUserRole user.id p.2 with
            | true =>
              simp [roleStep, roleUpd, hu, hr, hupd]
              omega
            | false => simp [roleStep, roleUpd, hu, hr, hupd]

theorem roleLoop_trace (env : SyncEnv) (dry : Bool) :
    ∀ (desired : List (String × String)) (acc : Nat × List (Mutation × Bool)),
      (desired.foldl (roleStep env dry) acc).2 =
        acc.2 ++ desired.filterMap (roleTraceEntry env dry) := by
  intro desired
  induction desired with
  | nil => intro acc; simp
  | cons p l ih =>
    intro acc
    rw [List.foldl_cons, ih, List.filterMap_cons]
    cases hu : env.getUserByEmail p.1 with
    | error u => simp [roleStep, roleTraceEntry, hu]
    | ok ou =>
      cases ou with
      | none => simp [roleStep, roleTraceEntry, hu]
      | some user =>
        by_cases hr : user.role = p.2
        · simp [roleStep, roleTraceEntry, hu, hr]
        · cases dry with
          | true => simp [roleStep, roleTraceEntry, hu, hr]
          | false =>
            cases hupd : env.updateUserRole user.id p.2 with
            | true => simp [roleStep, roleTraceEntry, hu, hr, hupd]
            | false => simp [roleStep, roleTraceEntry, hu, hr, hupd]

theorem adminLoop_count (env : SyncEnv) (dry : Bool) (s : Finset String) :
    ∀ (users : List OrgUser) (acc : Nat × List (Mutation × Bool)),
      (users.foldl (adminStep env dry s) acc).1 =
        acc.1 + (users.filter (adminUpd env dry s)).length := by
  intro users
  induction users with
  | nil => intro acc; simp
  | cons u l ih =>
    intro acc
    rw [List.foldl_cons, ih, List.filter_cons]
    by_cases hd : u.isGrafanaAdmin = decide (lower u.email ∈ s)
    · simp [adminStep, adminUpd, hd]
    · cases dry with
      | true =>
        simp [adminStep, adminUpd, hd]
        omega
      | false =>
        cases hset : env.setUserAdminPermission u.userId
            (decide (lower u.email ∈ s)) with
        | true =>
          simp [adminStep, adminUpd, hd, hset]
          omega
        | false => simp [adminStep, adminUpd, hd, hset]

theorem adminLoop_trace (env : SyncEnv) (dry : Bool) (s : Finset String) :
    ∀ (users : List OrgUser) (acc : Nat × List (Mutation × Bool)),
      (users.foldl (adminStep env dry s) acc).2 =
        acc.2 ++ users.filterMap (adminTraceEntry env dry s) := by
  intro users
  induction users with
  | nil => intro acc; simp
  | cons u l ih =>
    intro acc
    rw [List.foldl_cons, ih, List.filterMap_cons]
    by_cases hd : u.isGrafanaAdmin = decide (lower u.email ∈ s)
    · simp [adminStep, adminTraceEntry, hd]
    · cases dry with
      | true => simp [adminStep, adminTraceEntry, hd]
      | false =>
        cases hset : env.setUserAdminPermission u.userId
            (decide (lower u.email ∈ s)) with
        | true => simp [adminStep, adminTraceEntry, hd, hset]
        | false => simp [adminStep, adminTraceEntry, hd, hset]

theorem sync_ok_components
    (env : SyncEnv) (dry : Bool) (g t role : String)
    (d : List (String × String)) (okta_members : List OktaMember)
    (tid : Nat) (mems : List TeamMember)
    (hg : env.getGroupMembers g = .ok okta_members)
    (ht : env.getOrCreateTeam t = .ok tid)
    (hm : env.getTeamMembers tid = .ok mems) :
    (sync_group_to_team env dry g t role d).raised = false ∧
    (sync_group_to_team env dry g t role d).metrics.users_added =
      ((env.enum (sync_to_add okta_members mems)).filter
        (addSucceeds env dry tid)).length ∧
    (sync_group_to_team env dry g t role d).metrics.users_removed =
      ((env.enum (sync_to_remove okta_members mems)).filter
        (removeSucceeds env dry tid mems)).length ∧
    (sync_group_to_team env dry g t role d).metrics.errors =
      ((env.enum (sync_to_add okta_members mems)).filter
        (addFails env dry tid)).length +
      ((env.enum (sync_to_remove okta_members mems)).filter
        (removeFails env dry tid mems)).length ∧
    (sync_group_to_team env dry g t role d).trace =
      (env.enum (sync_to_add okta_members mems)).filterMap
        (addTrace env dry tid) ++
      (env.enum (sync_to_remove okta_members mems)).filterMap
        (removeTrace env dry tid mems) ∧
    (sync_group_to_team env dry g t role d).desired =
      track_desired_roles env.enum (oktaEmails okta_members) role d ∧
    (sync_group_to_team env dry g t role d).metrics.duration_seconds =
      env.elapsed ∧
    (sync_group_to_team env dry g t role d).metrics.roles_updated = 0 := by
  unfold sync_group_to_team
  rw [hg]
  dsimp only
  rw [ht]
  dsimp only
  rw [hm]
  dsimp only
  refine ⟨rfl, ?_, ?_, ?_, ?_, rfl, rfl, ?_⟩
  · rw [removeLoop_users_added, addLoop_users_added]
    simp
  · rw [removeLoop_users_removed, addLoop_users_removed]
    simp
  · rw [removeLoop_errors, addLoop_errors]
    simp
  · rw [removeLoop_trace, addLoop_trace]
    simp
  · rw [removeLoop_roles_updated, addLoop_roles_updated]

theorem sync_abort (env : SyncEnv) (dry : Bool) (g t role : String)
    (d : List (String × String))
    (h : env.getGroupMembers g = .error () ∨
      env.getOrCreateTeam t = .error () ∨
      ∃ tid, env.getOrCreateTeam t = .ok tid ∧
        env.getTeamMembers tid = .error ()) :
    sync_group_to_team env dry g t role d = abortOutcome env.elapsed d := by
  unfold sync_group_to_team
  cases hg : env.getGroupMembers g with
  | error u => rfl
  | ok members =>
    dsimp only
    rcases h with h | h | ⟨tid, htid, hmem⟩
    · rw [hg] at h
      exact Except.noConfusion h
    · rw [h]
    · rw [htid]
      dsimp only
      rw [hmem]

theorem length_filter_enum (enum : Finset String → List String)
    (henum : ValidEnum enum) (s : Finset String) (p : String → Bool) :
    ((enum s).filter p).length = (s.filter (fun e => p e)).card := by
  rcases henum s with ⟨hnodup, hset⟩
  rw [← List.toFinset_card_of_nodup (hnodup.filter p)]
  congr 1
  ext e
  simp only [List.mem_toFinset, List.mem_filter, Finset.mem_filter]
  constructor
  · rintro ⟨he, hp⟩
    exact ⟨by rw [← hset]; exact List.mem_toFinset.mpr he, hp⟩
  · rintro ⟨he, hp⟩
    refine ⟨?_, hp⟩
    rw [← hset] at he
    exact List.mem_toFinset.mp he

theorem filterMap_erase_of_none {β : Type} (f : String → Option β)
    (e : String) (hf : f e = none) :
    ∀ l : List String, (l.erase e).filterMap f = l.filterMap f := by
  intro l
  induction l with
  | nil => rfl
  | cons b l ih =>
    by_cases hb : b = e
    · subst hb
      rw [List.erase_cons_head, List.filterMap_cons, hf]
    · rw [List.erase_cons_tail (by simp [hb]), List.filterMap_cons,
        List.filterMap_cons, ih]

theorem card_filter_erase (s : Finset String) (e : String)
    (p : String → Bool) (hp : p e = false) :
    (((s.erase e).filter (fun x => p x)).card : Nat) =
      ((s.filter (fun x => p x)).card : Nat) := by
  rw [Finset.filter_erase,
    Finset.erase_eq_of_not_mem (by simp [Finset.mem_filter, hp])]

/-- C4: `update_user_roles` counts (and, live, mutates) exactly the
identities that exist in the sink and whose current role differs from the
desired role by literal string comparison; in particular a dominating
current role is still lowered. -/
theorem role_update_exact_comparison
    (env : SyncEnv) (desired : List (String × String))
    (hkeys : (desired.map Prod.fst).Nodup)
    (hmut : ∀ uid r, env.updateUserRole uid r = true) (dry : Bool) :
    (update_user_roles env dry desired).1 =
      (desired.filter (roleDiffers env)).length ∧
    (update_user_roles env false desired).2 =
      desired.filterMap (fun p =>
        match env.getUserByEmail p.1 with
        | .ok (some user) =>
            if user.role != p.2 then
              some (.updateRole user.id p.2, true)
            else none
        | _ => none) := by
  constructor
  · unfold update_user_roles
    rw [roleLoop_count]
    simp only [Nat.zero_add]
    congr 1
    apply List.filter_congr
    intro p _
    unfold roleUpd roleDiffers
    cases hu : env.getUserByEmail p.1 with
    | error u => rfl
    | ok ou =>
      cases ou with
      | none => rfl
      | some user =>
        dsimp only
        rw [hmut user.id p.2]
        cases dry <;> simp
  · unfold update_user_roles
    rw [roleLoop_trace]
    simp only [List.nil_append]
    apply List.filterMap_congr
    intro p _
    unfold roleTraceEntry
    cases hu : env.getUserByEmail p.1 with
    | error u => rfl
    | ok ou =>
      cases ou with
      | none => rfl
      | some user =>
        dsimp only
        rw [hmut user.id p.2]
        simp

/-- Witness for C4: alice currently holds Admin, the desired role is
Viewer; the reconciler counts and issues exactly one lowering update. -/
theorem role_update_exact_comparison_witness :
    (update_user_roles envW4 false desiredW).1 = 1 ∧
    (update_user_roles envW4 false desiredW).2 =
      [(.updateRole 7 "Viewer", true)] := by
  have h := role_update_exact_comparison envW4 desiredW (by decide)
    (fun uid r => rfl) false
  constructor
  · rw [h.1]
    decide
  · rw [h.2]
    decide

/-- C6: with all three snapshots fetched, each identity's add/remove
attempt is independent: every email of both diff sets is attempted, the
error counter is exactly the number of distinct emails whose attempt
failed, and the success counters are the numbers of distinct emails whose
attempt succeeded. -/
theorem partial_failure_isolation
    (env : SyncEnv) (dry : Bool) (g t role : String)
    (d : List (String × String)) (okta_members : List OktaMember)
    (tid : Nat) (mems : List TeamMember)
    (hg : env.getGroupMembers g = .ok okta_members)
    (ht : env.getOrCreateTeam t = .ok tid)
    (hm : env.getTeamMembers tid = .ok mems)
    (henum : ValidEnum env.enum) :
    (sync_group_to_team env dry g t role d).metrics.errors =
      ((sync_to_add okta_members mems).filter
        (fun e => addFails env dry tid e)).card +
      ((sync_to_remove okta_members mems).filter
        (fun e => removeFails env dry tid mems e)).card ∧
    (sync_group_to_team env dry g t role d).metrics.users_added =
      ((sync_to_add okta_members mems).filter
        (fun e => addSucceeds env dry tid e)).card ∧
    (sync_group_to_team env dry g t role d).metrics.users_removed =
      ((sync_to_remove okta_members mems).filter
        (fun e => removeSucceeds env dry tid mems e)).card ∧
    (sync_group_to_team env dry g t role d).trace =
      (env.enum (sync_to_add okta_members mems)).filterMap
        (addTrace env dry tid) ++
      (env.enum (sync_to_remove okta_members mems)).filterMap
        (removeTrace env dry tid mems) := by
  obtain ⟨_, hua, hur, herr, htr, _, _, _⟩ :=
    sync_ok_components env dry g t role d okta_members tid mems hg ht hm
  refine ⟨?_, ?_, ?_, htr⟩
  · rw [herr, length_filter_enum env.enum henum,
      length_filter_enum env.enum henum]
  · rw [hua, length_filter_enum env.enum henum]
  · rw [hur, length_filter_enum env.enum henum]

/-- Witness for C6: adding b fails while a and c succeed; the run reports
2 users added and exactly 1 error. -/
theorem partial_failure_isolation_witness :
    (sync_group_to_team envW6 false "G" "T" "Viewer" []).metrics.errors = 1 ∧
    (sync_group_to_team envW6 false "G" "T" "Viewer"
      []).metrics.users_added = 2 := by
  have h := partial_failure_isolation envW6 false "G" "T" "Viewer" []
    [⟨⟨"a@x.com"⟩⟩, ⟨⟨"b@x.com"⟩⟩, ⟨⟨"c@x.com"⟩⟩] 1 [] rfl rfl rfl
    sortEnum_valid
  constructor
  · rw [h.1]
    decide
  · rw [h.2.1]
    decide

/-- C8: when the Okta member fetch, the team get-or-create, or the team
member fetch fails, the whole mapping aborts and re-raises, but the
metrics are finalized first: duration set, zero progress, one error, and
the completion hook receives exactly those values. -/
theorem snapshot_failure_aborts_with_metrics
    (env : SyncEnv) (dry : Bool) (g t role : String)
    (d : List (String × String))
    (h : env.getGroupMembers g = .error () ∨
      env.getOrCreateTeam t = .error () ∨
      ∃ tid, env.getOrCreateTeam t = .ok tid ∧
        env.getTeamMembers tid = .error ()) :
    (sync_group_to_team env dry g t role d).raised = true ∧
    (sync_group_to_team env dry g t role d).metrics.users_added = 0 ∧
    (sync_group_to_team env dry g t role d).metrics.users_removed = 0 ∧
    (sync_group_to_team env dry g t role d).metrics.errors = 1 ∧
    (sync_group_to_team env dry g t role d).metrics.duration_seconds =
      env.elapsed ∧
    (sync_group_to_team env dry g t role d).emitted =
      { duration := env.elapsed, users_added := 0, users_removed := 0,
        errors := 1 } ∧
    (sync_group_to_team env dry g t role d).trace = [] := by
  rw [sync_abort env dry g t role d h]
  exact ⟨rfl, rfl, rfl, rfl, rfl, rfl, rfl⟩

/-- Witness for C8: group G3 does not exist in `envW`; the sync aborts
with one error and zero progress. -/
theorem snapshot_failure_aborts_with_metrics_witness :
    envW.getGroupMembers "G3" = .error () ∧
    (sync_group_to_team envW false "G3" "T1" "Viewer" []).raised = true ∧
    (sync_group_to_team envW false "G3" "T1" "Viewer" []).metrics.errors
      = 1 ∧
    (sync_group_to_team envW false "G3" "T1" "Viewer"
      []).metrics.users_added = 0 := by
  have h := snapshot_failure_aborts_with_metrics envW false "G3" "T1"
    "Viewer" [] (Or.inl rfl)
  exact ⟨rfl, h.1, h.2.2.2.1, h.2.1⟩

/-- C9: an email of the to-add set whose sink user lookup returns None is
skipped: it contributes no mutation, no users_added increment and no
errors increment, in dry-run and live mode alike. -/
theorem missing_user_skipped
    (env : SyncEnv) (dry : Bool) (g t role : String)
    (d : List (String × String)) (okta_members : List OktaMember)
    (tid : Nat) (mems : List TeamMember) (e : String)
    (hg : env.getGroupMembers g = .ok okta_members)
    (ht : env.getOrCreateTeam t = .ok tid)
    (hm : env.getTeamMembers tid = .ok mems)
    (henum : ValidEnum env.enum)
    (he : e ∈ sync_to_add okta_members mems)
    (hu : env.getUserByEmail e = .ok none) :
    (sync_group_to_team env dry g t role d).metrics.users_added =
      (((sync_to_add okta_members mems).erase e).filter
        (fun x => addSucceeds env dry tid x)).card ∧
    (sync_group_to_team env dry g t role d).metrics.errors =
      (((sync_to_add okta_members mems).erase e).filter
        (fun x => addFails env dry tid x)).card +
      ((sync_to_remove okta_members mems).filter
        (fun x => removeFails env dry tid mems x)).card ∧
    (sync_group_to_team env dry g t role d).trace =
      ((env.enum (sync_to_add okta_members mems)).erase e).filterMap
        (addTrace env dry tid) ++
      (env.enum (sync_to_remove okta_members mems)).filterMap
        (removeTrace env dry tid mems) := by
  have hs : addSucceeds env dry tid e = false := by
    unfold addSucceeds
    rw [hu]
  have hfA : addFails env dry tid e = false := by
    unfold addFails
    rw [hu]
  have htA : addTrace env dry tid e = none := by
    unfold addTrace
    rw [hu]
  obtain ⟨_, hua, _, herr, htr, _, _, _⟩ :=
    sync_ok_components env dry g t role d okta_members tid mems hg ht hm
  refine ⟨?_, ?_, ?_⟩
  · rw [hua, length_filter_enum env.enum henum,
      card_filter_erase _ e _ hs]
  · rw [herr, length_filter_enum env.enum henum,
      length_filter_enum env.enum henum, card_filter_erase _ e _ hfA]
  · rw [htr, filterMap_erase_of_none (addTrace env dry tid) e htA]

/-- Witness for C9: alice is in the source group but has no Grafana
account; the run adds nothing, errors nothing. -/
theorem missing_user_skipped_witness :
    (sync_group_to_team envW false "G1" "T1" "Viewer"
      []).metrics.users_added = 0 ∧
    (sync_group_to_team envW false "G1" "T1" "Viewer" []).metrics.errors
      = 0 := by
  have h := missing_user_skipped envW false "G1" "T1" "Viewer" []
    [⟨⟨"alice@x.com"⟩⟩] 1 [] "alice@x.com" rfl rfl rfl sortEnum_valid
    (by decide) rfl
  constructor
  · rw [h.1]
    decide
  · rw [h.2.1]
    decide

theorem SyncMetrics_ext {m1 m2 : SyncMetrics}
    (h1 : m1.users_added = m2.users_added)
    (h2 : m1.users_removed = m2.users_removed)
    (h3 : m1.roles_updated = m2.roles_updated)
    (h4 : m1.errors = m2.errors)
    (h5 : m1.duration_seconds = m2.duration_seconds) : m1 = m2 := by
  cases m1
  cases m2
  simp_all

theorem admin_sync_roster_error (env : SyncEnv) (dry : Bool)
    (gs : List String) (hroster : env.getOrgUsers = .error ()) :
    sync_admin_privileges env dry gs = (0, []) := by
  unfold sync_admin_privileges
  by_cases hgs : gs = []
  · rw [if_pos hgs]
  · rw [if_neg hgs]
    dsimp only
    rw [hroster]

theorem admin_sync_ok (env : SyncEnv) (dry : Bool) (gs : List String)
    (all_users : List OrgUser) (hgs : gs ≠ [])
    (hroster : env.getOrgUsers = .ok all_users) :
    sync_admin_privileges env dry gs =
      ((all_users.filter (adminUpd env dry (adminUnion env gs))).length,
        all_users.filterMap (adminTraceEntry env dry (adminUnion env gs))) := by
  unfold sync_admin_privileges
  rw [if_neg hgs]
  dsimp only
  rw [hroster]
  dsimp only
  refine Prod.ext ?_ ?_
  · rw [adminLoop_count]
    simp
  · rw [adminLoop_trace]
    simp

theorem adminUnion_append (env : SyncEnv) (gs1 gs2 : List String)
    (gf : String) (hg : env.getGroupMembers gf = .error ()) :
    adminUnion env (gs1 ++ gf :: gs2) = adminUnion env (gs1 ++ gs2) := by
  unfold adminUnion
  rw [List.foldl_append, List.foldl_append, List.foldl_cons]
  congr 1
  rw [hg]

theorem adminUnion_fold_mem (env : SyncEnv)
    (membersOf : String → List OktaMember) :
    ∀ (gs : List String) (acc : Finset String),
      (∀ g ∈ gs, env.getGroupMembers g = .ok (membersOf g)) →
      ∀ e, (e ∈ gs.foldl (fun acc g =>
          match env.getGroupMembers g with
          | .ok members => acc ∪ oktaEmails members
          | .error _ => acc) acc) ↔
        e ∈ acc ∨ ∃ g ∈ gs, e ∈ oktaEmails (membersOf g) := by
  intro gs
  induction gs with
  | nil => intro acc _ e; simp
  | cons g gs ih =>
    intro acc hok e
    rw [List.foldl_cons]
    have hg := hok g (List.mem_cons_self g gs)
    rw [hg]
    dsimp only
    rw [ih (acc ∪ oktaEmails (membersOf g))
      (fun g2 h2 => hok g2 (List.mem_cons_of_mem g h2)) e,
      Finset.mem_union]
    constructor
    · rintro ((h | h) | ⟨g2, hg2, hmem⟩)
      · exact Or.inl h
      · exact Or.inr ⟨g, List.mem_cons_self g gs, h⟩
      · exact Or.inr ⟨g2, List.mem_cons_of_mem g hg2, hmem⟩
    · rintro (h | ⟨g2, hg2, hmem⟩)
      · exact Or.inl (Or.inl h)
      · rcases List.mem_cons.mp hg2 with h2 | h2
        · subst h2
          exact Or.inl (Or.inr hmem)
        · exact Or.inr ⟨g2, h2, hmem⟩

theorem mem_adminUnion (env : SyncEnv)
    (membersOf : String → List OktaMember) (gs : List String)
    (hok : ∀ g ∈ gs, env.getGroupMembers g = .ok (membersOf g))
    (e : String) :
    e ∈ adminUnion env gs ↔ ∃ g ∈ gs, e ∈ oktaEmails (membersOf g) := by
  unfold adminUnion
  rw [adminUnion_fold_mem env membersOf gs ∅ hok e]
  simp

theorem adminTraceEntry_userId (env : SyncEnv) (s : Finset String)
    (u : OrgUser) (x : Mutation × Bool)
    (h : adminTraceEntry env false s u = some x) :
    setAdminUserId x.1 = some u.userId := by
  unfold adminTraceEntry at h
  split_ifs at h
  · injection h with h2
    subst h2
    rfl

theorem admin_trace_countP_zero (env : SyncEnv) (s : Finset String)
    (uid0 : Nat) :
    ∀ l : List OrgUser, uid0 ∉ l.map OrgUser.userId →
      ((l.filterMap (adminTraceEntry env false s)).countP
        (fun x => setAdminUserId x.1 == some uid0)) = 0 := by
  intro l
  induction l with
  | nil => intro _; rfl
  | cons u l ih =>
    intro hmem
    simp only [List.map_cons, List.mem_cons] at hmem
    push_neg at hmem
    obtain ⟨hne, hrest⟩ := hmem
    rw [List.filterMap_cons]
    cases hentry : adminTraceEntry env false s u with
    | none => exact ih hrest
    | some x =>
      rw [List.countP_cons, ih hrest]
      have hx := adminTraceEntry_userId env s u x hentry
      have hne2 : u.userId ≠ uid0 := fun h => hne h.symm
      simp [hx, hne2]

theorem admin_trace_once (env : SyncEnv) (s : Finset String) :
    ∀ (users : List OrgUser), (users.map OrgUser.userId).Nodup →
      ∀ u0 ∈ users,
        ((users.filterMap (adminTraceEntry env false s)).countP
          (fun x => setAdminUserId x.1 == some u0.userId)) =
        if u0.isGrafanaAdmin != decide (lower u0.email ∈ s) then 1
        else 0 := by
  intro users
  induction users with
  | nil =>
    intro _ u0 h
    exact absurd h (List.not_mem_nil u0)
  | cons u l ih =>
    intro hnodup u0 hu0
    simp only [List.map_cons] at hnodup
    rcases List.nodup_cons.mp hnodup with ⟨huid, hl⟩
    rw [List.filterMap_cons]
    rcases List.mem_cons.mp hu0 with h0 | h0
    · subst h0
      by_cases hd : (u0.isGrafanaAdmin != decide (lower u0.email ∈ s)) = true
      · have hentry : adminTraceEntry env false s u0 =
            some (.setAdmin u0.userId (decide (lower u0.email ∈ s)),
              env.setUserAdminPermission u0.userId
                (decide (lower u0.email ∈ s))) := by
          unfold adminTraceEntry
          simp [hd]
        rw [hentry, List.countP_cons,
          admin_trace_countP_zero env s u0.userId l huid, hd]
        simp [setAdminUserId]
      · have hentry : adminTraceEntry env false s u0 = none := by
          unfold adminTraceEntry
          simp [hd]
        rw [hentry, admin_trace_countP_zero env s u0.userId l huid]
        simp only [Bool.not_eq_true] at hd
        rw [hd]
        rfl
    · have hrec := ih hl u0 h0
      cases hentry : adminTraceEntry env false s u with
      | none => exact hrec
      | some x =>
        rw [List.countP_cons, hrec]
        have hx := adminTraceEntry_userId env s u x hentry
        have hne : u.userId ≠ u0.userId := by
          intro hEq
          exact huid (hEq ▸ List.mem_map.mpr ⟨u0, h0, rfl⟩)
        simp [hx, hne]

/-- C5: with a non-empty admin group list, the sweep mutates exactly the
roster users whose admin flag differs from membership of their lower-cased
email in the union of the admin groups' member emails — promoting members
without the flag, demoting flagged non-members — once per such user, and
returns their number; matching users are untouched. -/
theorem admin_sweep_exact
    (env : SyncEnv) (dry : Bool) (gs : List String)
    (membersOf : String → List OktaMember) (all_users : List OrgUser)
    (hgs : gs ≠ [])
    (hok : ∀ g ∈ gs, env.getGroupMembers g = .ok (membersOf g))
    (hroster : env.getOrgUsers = .ok all_users)
    (hmut : ∀ uid b, env.setUserAdminPermission uid b = true)
    (hids : (all_users.map OrgUser.userId).Nodup) :
    (∀ e, e ∈ adminUnion env gs ↔ ∃ g ∈ gs, e ∈ oktaEmails (membersOf g)) ∧
    (sync_admin_privileges env dry gs).1 =
      (all_users.filter (fun u =>
        u.isGrafanaAdmin !=
          decide (lower u.email ∈ adminUnion env gs))).length ∧
    (sync_admin_privileges env false gs).2 =
      all_users.filterMap (fun u =>
        if u.isGrafanaAdmin != decide (lower u.email ∈ adminUnion env gs)
        then
          some (.setAdmin u.userId
            (decide (lower u.email ∈ adminUnion env gs)), true)
        else none) ∧
    (∀ u0 ∈ all_users,
      ((sync_admin_privileges env false gs).2.countP
        (fun x => setAdminUserId x.1 == some u0.userId)) =
      if u0.isGrafanaAdmin != decide (lower u0.email ∈ adminUnion env gs)
      then 1 else 0) := by
  refine ⟨mem_adminUnion env membersOf gs hok, ?_, ?_, ?_⟩
  · rw [admin_sync_ok env dry gs all_users hgs hroster]
    dsimp only
    congr 1
    apply List.filter_congr
    intro u _
    unfold adminUpd
    rw [hmut u.userId (decide (lower u.email ∈ adminUnion env gs))]
    cases dry <;> simp
  · rw [admin_sync_ok env false gs all_users hgs hroster]
    dsimp only
    apply List.filterMap_congr
    intro u _
    unfold adminTraceEntry
    rw [hmut u.userId (decide (lower u.email ∈ adminUnion env gs))]
    simp
  · rw [admin_sync_ok env false gs all_users hgs hroster]
    dsimp only
    exact admin_trace_once env (adminUnion env gs) all_users hids

/-- Witness for C5: union {root}, roster root(no flag), old(flag),
ok(no flag): root is promoted and old demoted, each exactly once; two
updates reported. -/
theorem admin_sweep_exact_witness :
    (sync_admin_privileges envW5 false ["AG"]).1 = 2 ∧
    (sync_admin_privileges envW5 false ["AG"]).2 =
      [(.setAdmin 1 true, true), (.setAdmin 2 false, true)] := by
  have h := admin_sweep_exact envW5 false ["AG"]
    (fun _ => [⟨⟨"root@x.com"⟩⟩])
    [⟨"root@x.com", 1, false⟩, ⟨"old@x.com", 2, true⟩,
      ⟨"ok@x.com", 3, false⟩]
    (by decide)
    (by
      intro g hg
      rcases List.mem_cons.mp hg with h2 | h2
      · subst h2
        rfl
      · exact absurd h2 (List.not_mem_nil g))
    rfl (fun _ _ => rfl) (by decide)
  constructor
  · rw [h.2.1]
    decide
  · rw [h.2.2.1]
    decide

/-- C10: `sync_admin_privileges` is total in the face of any client
behaviour: a failed roster fetch returns 0 with no mutations, a failed
admin-group lookup merely drops that group from the union, and with the
roster fetched the sweep runs to completion over every user with an
explicit count and trace; `sync_group_to_team` by contrast re-raises a
failed source fetch. -/
theorem admin_sync_never_raises
    (env : SyncEnv) (dry : Bool) (gs : List String) (g0 t0 role0 : String)
    (d0 : List (String × String)) :
    (env.getOrgUsers = .error () →
      sync_admin_privileges env dry gs = (0, [])) ∧
    (∀ gs1 gs2 gf, env.getGroupMembers gf = .error () →
      adminUnion env (gs1 ++ gf :: gs2) = adminUnion env (gs1 ++ gs2)) ∧
    (∀ all_users, gs ≠ [] → env.getOrgUsers = .ok all_users →
      sync_admin_privileges env dry gs =
        ((all_users.filter (adminUpd env dry (adminUnion env gs))).length,
          all_users.filterMap
            (adminTraceEntry env dry (adminUnion env gs)))) ∧
    (env.getGroupMembers g0 = .error () →
      (sync_group_to_team env dry g0 t0 role0 d0).raised = true) := by
  refine ⟨?_, ?_, ?_, ?_⟩
  · intro hros
    exact admin_sync_roster_error env dry gs hros
  · intro gs1 gs2 gf hg
    exact adminUnion_append env gs1 gs2 gf hg
  · intro all_users hgs hros
    exact admin_sync_ok env dry gs all_users hgs hros
  · intro hg
    rw [sync_abort env dry g0 t0 role0 d0 (Or.inl hg)]
    rfl

/-- Witness for C10: with the roster fetch failing the admin sync still
returns 0 without raising, while the membership sync re-raises its failed
source fetch. -/
theorem admin_sync_never_raises_witness :
    sync_admin_privileges envW10 false ["AG"] = (0, []) ∧
    (sync_group_to_team envW10 false "G1" "T1" "Viewer" []).raised
      = true := by
  have h := admin_sync_never_raises envW10 false ["AG"] "G1" "T1"
    "Viewer" []
  exact ⟨h.1 rfl, h.2.2.2 rfl⟩

/-- C7: on the same snapshots, with no live mutation call failing, a
dry run and a live run produce the same metrics and counters, and the dry
run issues no mutation call at all, across the membership sync, the role
pass and the admin pass. -/
theorem dry_run_equivalence
    (env : SyncEnv) (g t role : String) (d : List (String × String))
    (desired : List (String × String)) (gs : List String)
    (hadd : ∀ tid uid, env.addUserToTeam tid uid = true)
    (hrem : ∀ tid uid, env.removeUserFromTeam tid uid = true)
    (hrole : ∀ uid r, env.updateUserRole uid r = true)
    (hadm : ∀ uid b, env.setUserAdminPermission uid b = true) :
    (sync_group_to_team env true g t role d).metrics =
      (sync_group_to_team env false g t role d).metrics ∧
    (sync_group_to_team env true g t role d).trace = [] ∧
    (update_user_roles env true desired).1 =
      (update_user_roles env false desired).1 ∧
    (update_user_roles env true desired).2 = [] ∧
    (sync_admin_privileges env true gs).1 =
      (sync_admin_privileges env false gs).1 ∧
    (sync_admin_privileges env true gs).2 = [] := by
  have hsync : (sync_group_to_team env true g t role d).metrics =
      (sync_group_to_team env false g t role d).metrics ∧
      (sync_group_to_team env true g t role d).trace = [] := by
    cases hg : env.getGroupMembers g with
    | error u =>
      cases u
      rw [sync_abort env true g t role d (Or.inl hg),
        sync_abort env false g t role d (Or.inl hg)]
      exact ⟨rfl, rfl⟩
    | ok members =>
      cases ht : env.getOrCreateTeam t with
      | error u =>
        cases u
        rw [sync_abort env true g t role d (Or.inr (Or.inl ht)),
          sync_abort env false g t role d (Or.inr (Or.inl ht))]
        exact ⟨rfl, rfl⟩
      | ok tid =>
        cases hm : env.getTeamMembers tid with
        | error u =>
          cases u
          rw [sync_abort env true g t role d
              (Or.inr (Or.inr ⟨tid, ht, hm⟩)),
            sync_abort env false g t role d
              (Or.inr (Or.inr ⟨tid, ht, hm⟩))]
          exact ⟨rfl, rfl⟩
        | ok mems =>
          have hS : ∀ e, addSucceeds env true tid e =
              addSucceeds env false tid e := by
            intro e
            unfold addSucceeds
            cases hu : env.getUserByEmail e with
            | error u => rfl
            | ok ou =>
              cases ou with
              | none => rfl
              | some user =>
                dsimp only
                rw [hadd tid user.id]
                rfl
          have hF : ∀ e, addFails env true tid e =
              addFails env false tid e := by
            intro e
            unfold addFails
            cases hu : env.getUserByEmail e with
            | error u => rfl
            | ok ou =>
              cases ou with
              | none => rfl
              | some user =>
                dsimp only
                rw [hadd tid user.id]
                simp
          have hRS : ∀ e, removeSucceeds env true tid mems e =
              removeSucceeds env false tid mems e := by
            intro e
            unfold removeSucceeds
            cases hf : mems.find? (fun m => lower m.email == e) with
            | none => rfl
            | some mem =>
              dsimp only
              rw [hrem tid mem.userId]
              rfl
          have hRF : ∀ e, removeFails env true tid mems e =
              removeFails env false tid mems e := by
            intro e
            unfold removeFails
            cases hf : mems.find? (fun m => lower m.email == e) with
            | none => rfl
            | some mem =>
              dsimp only
              rw [hrem tid mem.userId]
              simp
          obtain ⟨_, hua1, hur1, herr1, htr1, _, hdur1, hru1⟩ :=
            sync_ok_components env true g t role d members tid mems
              hg ht hm
          obtain ⟨_, hua2, hur2, herr2, _, _, hdur2, hru2⟩ :=
            sync_ok_components env false g t role d members tid mems
              hg ht hm
          constructor
          · refine SyncMetrics_ext ?_ ?_ ?_ ?_ ?_
            · rw [hua1, hua2]
              congr 1
              exact List.filter_congr (fun x _ => hS x)
            · rw [hur1, hur2]
              congr 1
              exact List.filter_congr (fun x _ => hRS x)
            · rw [hru1, hru2]
            · rw [herr1, herr2]
              congr 2
              · exact List.filter_congr (fun x _ => hF x)
              · exact List.filter_congr (fun x _ => hRF x)
            · rw [hdur1, hdur2]
          · rw [htr1]
            have h1 : ∀ e, addTrace env true tid e = none := by
              intro e
              unfold addTrace
              cases hu : env.getUserByEmail e with
              | error u => rfl
              | ok ou =>
                cases ou with
                | none => rfl
                | some user => simp
            have h2 : ∀ e, removeTrace env true tid mems e = none := by
              intro e
              unfold removeTrace
              cases hf : mems.find? (fun m => lower m.email == e) with
              | none => rfl
              | some mem => simp
            rw [List.filterMap_eq_nil.mpr (fun a _ => h1 a),
              List.filterMap_eq_nil.mpr (fun a _ => h2 a)]
            rfl
  refine ⟨hsync.1, hsync.2, ?_, ?_, ?_, ?_⟩
  · unfold update_user_roles
    rw [roleLoop_count, roleLoop_count]
    congr 2
    apply List.filter_congr
    intro p _
    unfold roleUpd
    cases hu : env.getUserByEmail p.1 with
    | error u => rfl
    | ok ou =>
      cases ou with
      | none => rfl
      | some user =>
        dsimp only
        rw [hrole user.id p.2]
        rfl
  · unfold update_user_roles
    rw [roleLoop_trace]
    rw [List.filterMap_eq_nil.mpr ?_]
    · rfl
    · intro p _
      unfold roleTraceEntry
      cases hu : env.getUserByEmail p.1 with
      | error u => rfl
      | ok ou =>
        cases ou with
        | none => rfl
        | some user => simp
  · by_cases hgs : gs = []
    · subst hgs
      rfl
    · cases hros : env.getOrgUsers with
      | error u =>
        cases u
        rw [admin_sync_roster_error env true gs hros,
          admin_sync_roster_error env false gs hros]
      | ok all_users =>
        rw [admin_sync_ok env true gs all_users hgs hros,
          admin_sync_ok env false gs all_users hgs hros]
        dsimp only
        congr 1
        apply List.filter_congr
        intro u _
        unfold adminUpd
        rw [hadm u.userId (decide (lower u.email ∈ adminUnion env gs))]
        simp
  · by_cases hgs : gs = []
    · subst hgs
      rfl
    · cases hros : env.getOrgUsers with
      | error u =>
        cases u
        rw [admin_sync_roster_error env true gs hros]
      | ok all_users =>
        rw [admin_sync_ok env true gs all_users hgs hros]
        dsimp only
        rw [List.filterMap_eq_nil.mpr ?_]
        intro u _
        unfold adminTraceEntry
        simp

/-- Witness for C7: on `envW` (every live mutation succeeds) the dry and
live runs of all three passes agree and the dry runs issue nothing. -/
theorem dry_run_equivalence_witness :
    (sync_group_to_team envW true "G1" "T1" "Viewer" []).metrics =
      (sync_group_to_team envW false "G1" "T1" "Viewer" []).metrics ∧
    (sync_group_to_team envW true "G1" "T1" "Viewer" []).trace = [] ∧
    (update_user_roles envW true desiredW).1 =
      (update_user_roles envW false desiredW).1 ∧
    (update_user_roles envW true desiredW).2 = [] ∧
    (sync_admin_privileges envW true ["AG"]).1 =
      (sync_admin_privileges envW false ["AG"]).1 ∧
    (sync_admin_privileges envW true ["AG"]).2 = [] :=
  dry_run_equivalence envW "G1" "T1" "Viewer" [] desiredW ["AG"]
    (fun _ _ => rfl) (fun _ _ => rfl) (fun _ _ => rfl) (fun _ _ => rfl)

theorem find?_map_stable {α : Type} (f : α → α) (p : α → Bool)
    (hp : ∀ u, p (f u) = p u) :
    ∀ l : List α, (l.map f).find? p = (l.find? p).map f := by
  intro l
  induction l with
  | nil => rfl
  | cons u l ih =>
    rw [List.map_cons]
    cases hu : p u with
    | true =>
      rw [List.find?_cons_of_pos _ (by rw [hp]; exact hu),
        List.find?_cons_of_pos _ hu]
      rfl
    | false =>
      rw [List.find?_cons_of_neg _ (by rw [hp, hu]; simp),
        List.find?_cons_of_neg _ (by rw [hu]; simp), ih]

theorem find?_key_unique {α κ : Type} [DecidableEq κ] (key : α → κ) :
    ∀ l : List α, (l.map key).Nodup → ∀ a ∈ l,
      l.find? (fun x => key x == key a) = some a := by
  intro l
  induction l with
  | nil =>
    intro _ a ha
    exact absurd ha (List.not_mem_nil a)
  | cons b l ih =>
    intro hnodup a ha
    simp only [List.map_cons] at hnodup
    rcases List.nodup_cons.mp hnodup with ⟨hb, hl⟩
    by_cases hba : key b = key a
    · have : a = b := by
        rcases List.mem_cons.mp ha with h | h
        · exact h
        · exact absurd (hba ▸ List.mem_map.mpr ⟨a, h, rfl⟩) hb
      subst this
      rw [List.find?_cons_of_pos _ (by simp)]
    · rw [List.find?_cons_of_neg _ (by simp [hba])]
      rcases List.mem_cons.mp ha with h | h
      · subst h
        exact absurd rfl hba
      · exact ih hl a h

theorem applyTrace_append (st : SinkState) (tr1 tr2 : List (Mutation × Bool)) :
    applyTrace st (tr1 ++ tr2) = applyTrace (applyTrace st tr1) tr2 :=
  List.foldl_append _ _ _ _

theorem applyMutation_users_skeleton (st : SinkState) (mu : Mutation) :
    ∃ F : SinkUser → SinkUser,
      (applyMutation st mu).users = st.users.map F ∧
      ∀ u, (F u).email = u.email ∧ (F u).id = u.id := by
  cases mu with
  | addToTeam tid uid =>
    refine ⟨id, ?_, fun u => ⟨rfl, rfl⟩⟩
    rw [List.map_id]
    simp only [applyMutation]
    split <;> rfl
  | removeFromTeam tid uid =>
    exact ⟨id, by rw [List.map_id]; rfl, fun u => ⟨rfl, rfl⟩⟩
  | updateRole uid r =>
    refine ⟨fun u => if u.id == uid then { u with role := r } else u, rfl, ?_⟩
    intro u
    by_cases h : u.id = uid <;> simp [h]
  | setAdmin uid b =>
    refine ⟨fun u => if u.id == uid then { u with isAdmin := b } else u, rfl, ?_⟩
    intro u
    by_cases h : u.id = uid <;> simp [h]

theorem applyTrace_users_skeleton :
    ∀ (tr : List (Mutation × Bool)) (st : SinkState),
      ∃ F : SinkUser → SinkUser,
        (applyTrace st tr).users = st.users.map F ∧
        ∀ u, (F u).email = u.email ∧ (F u).id = u.id := by
  intro tr
  induction tr with
  | nil => exact fun st => ⟨id, by simp [applyTrace], fun u => ⟨rfl, rfl⟩⟩
  | cons x tr ih =>
    intro st
    have hstep : applyTrace st (x :: tr) =
        applyTrace (if x.2 then applyMutation st x.1 else st) tr := rfl
    cases hx : x.2 with
    | false =>
      rcases ih st with ⟨F, hF, hFk⟩
      refine ⟨F, ?_, hFk⟩
      rw [hstep, hx]
      simpa using hF
    | true =>
      rcases applyMutation_users_skeleton st x.1 with ⟨F1, hF1, hF1k⟩
      rcases ih (applyMutation st x.1) with ⟨F2, hF2, hF2k⟩
      refine ⟨F2 ∘ F1, ?_, ?_⟩
      · rw [hstep, hx]
        simp only [if_true]
        rw [hF2, hF1, List.map_map]
      · intro u
        refine ⟨?_, ?_⟩
        · rw [Function.comp_apply, (hF2k (F1 u)).1, (hF1k u).1]
        · rw [Function.comp_apply, (hF2k (F1 u)).2, (hF1k u).2]

theorem applyTrace_team_of_usersOnly :
    ∀ (tr : List (Mutation × Bool)) (st : SinkState),
      (∀ x ∈ tr, usersOnly x.1 = true) →
      (applyTrace st tr).team = st.team := by
  intro tr
  induction tr with
  | nil => intro st _; rfl
  | cons x tr ih =>
    intro st hall
    have hx := hall x (List.mem_cons_self x tr)
    have hrest : ∀ y ∈ tr, usersOnly y.1 = true :=
      fun y hy => hall y (List.mem_cons_of_mem x hy)
    have hstep : applyTrace st (x :: tr) =
        applyTrace (if x.2 then applyMutation st x.1 else st) tr := rfl
    rw [hstep]
    cases hx2 : x.2 with
    | false =>
      simp only [Bool.false_eq_true, if_false]
      exact ih st hrest
    | true =>
      simp only [if_true]
      rw [ih _ hrest]
      cases hmu : x.1 with
      | updateRole uid r => rfl
      | setAdmin uid b => rfl
      | addToTeam tid uid =>
        rw [hmu] at hx
        exact absurd hx (by simp [usersOnly])
      | removeFromTeam tid uid =>
        rw [hmu] at hx
        exact absurd hx (by simp [usersOnly])

theorem roleById_applyMutation_no_touch (st : SinkState) (mu : Mutation)
    (uid : Nat) (h : touchesRole uid mu = false) :
    roleById (applyMutation st mu) uid = roleById st uid := by
  cases mu with
  | addToTeam tid uid2 =>
    unfold roleById userById
    simp only [applyMutation]
    split <;> rfl
  | removeFromTeam tid uid2 => rfl
  | updateRole uid2 r =>
    unfold touchesRole at h
    unfold roleById userById
    simp only [applyMutation]
    rw [find?_map_stable _ _
      (fun u => by by_cases hu : u.id = uid2 <;> simp [hu])]
    cases hf : st.users.find? (fun u => u.id == uid) with
    | none => rfl
    | some su =>
      have hsu : su.id = uid := by
        have := List.find?_some hf
        simpa using this
      have hne2 : ¬ uid2 = uid := by simpa using h
      have hnp : ¬ su.id = uid2 := by
        rw [hsu]
        exact fun hh => hne2 hh.symm
      simp [hnp]
  | setAdmin uid2 b =>
    unfold roleById userById
    simp only [applyMutation]
    rw [find?_map_stable _ _
      (fun u => by by_cases hu : u.id = uid2 <;> simp [hu])]
    cases hf : st.users.find? (fun u => u.id == uid) with
    | none => rfl
    | some su =>
      by_cases hsu : su.id = uid2 <;> simp [hsu]

theorem roleById_applyMutation_touch (st : SinkState) (uid : Nat)
    (r : String) :
    roleById (applyMutation st (.updateRole uid r)) uid =
      (roleById st uid).map (fun _ => r) := by
  unfold roleById userById
  simp only [applyMutation]
  rw [find?_map_stable _ _
    (fun u => by by_cases hu : u.id = uid <;> simp [hu])]
  cases hf : st.users.find? (fun u => u.id == uid) with
  | none => rfl
  | some su =>
    have hsu : su.id = uid := by
      have := List.find?_some hf
      simpa using this
    simp [hsu]

theorem roleById_applyTrace_no_touch :
    ∀ (tr : List (Mutation × Bool)) (st : SinkState) (uid : Nat),
      (∀ x ∈ tr, x.2 = true → touchesRole uid x.1 = false) →
      roleById (applyTrace st tr) uid = roleById st uid := by
  intro tr
  induction tr with
  | nil => intro st uid _; rfl
  | cons x tr ih =>
    intro st uid hall
    have hstep : applyTrace st (x :: tr) =
        applyTrace (if x.2 then applyMutation st x.1 else st) tr := rfl
    rw [hstep]
    have hrest : ∀ y ∈ tr, y.2 = true → touchesRole uid y.1 = false :=
      fun y hy => hall y (List.mem_cons_of_mem x hy)
    cases hx2 : x.2 with
    | false =>
      simp only [Bool.false_eq_true, if_false]
      exact ih st uid hrest
    | true =>
      simp only [if_true]
      rw [ih _ uid hrest,
        roleById_applyMutation_no_touch st x.1 uid
          (hall x (List.mem_cons_self x tr) hx2)]

theorem flagById_applyMutation_no_touch (st : SinkState) (mu : Mutation)
    (uid : Nat) (h : touchesFlag uid mu = false) :
    flagById (applyMutation st mu) uid = flagById st uid := by
  cases mu with
  | addToTeam tid uid2 =>
    unfold flagById userById
    simp only [applyMutation]
    split <;> rfl
  | removeFromTeam tid uid2 => rfl
  | setAdmin uid2 b =>
    unfold touchesFlag at h
    unfold flagById userById
    simp only [applyMutation]
    rw [find?_map_stable _ _
      (fun u => by by_cases hu : u.id = uid2 <;> simp [hu])]
    cases hf : st.users.find? (fun u => u.id == uid) with
    | none => rfl
    | some su =>
      have hsu : su.id = uid := by
        have := List.find?_some hf
        simpa using this
      have hne2 : ¬ uid2 = uid := by simpa using h
      have hnp : ¬ su.id = uid2 := by
        rw [hsu]
        exact fun hh => hne2 hh.symm
      simp [hnp]
  | updateRole uid2 r =>
    unfold flagById userById
    simp only [applyMutation]
    rw [find?_map_stable _ _
      (fun u => by by_cases hu : u.id = uid2 <;> simp [hu])]
    cases hf : st.users.find? (fun u => u.id == uid) with
    | none => rfl
    | some su =>
      by_cases hsu : su.id = uid2 <;> simp [hsu]

theorem flagById_applyMutation_touch (st : SinkState) (uid : Nat)
    (b : Bool) :
    flagById (applyMutation st (.setAdmin uid b)) uid =
      (flagById st uid).map (fun _ => b) := by
  unfold flagById userById
  simp only [applyMutation]
  rw [find?_map_stable _ _
    (fun u => by by_cases hu : u.id = uid <;> simp [hu])]
  cases hf : st.users.find? (fun u => u.id == uid) with
  | none => rfl
  | some su =>
    have hsu : su.id = uid := by
      have := List.find?_some hf
      simpa using this
    simp [hsu]

theorem flagById_applyTrace_no_touch :
    ∀ (tr : List (Mutation × Bool)) (st : SinkState) (uid : Nat),
      (∀ x ∈ tr, x.2 = true → touchesFlag uid x.1 = false) →
      flagById (applyTrace st tr) uid = flagById st uid := by
  intro tr
  induction tr with
  | nil => intro st uid _; rfl
  | cons x tr ih =>
    intro st uid hall
    have hstep : applyTrace st (x :: tr) =
        applyTrace (if x.2 then applyMutation st x.1 else st) tr := rfl
    rw [hstep]
    have hrest : ∀ y ∈ tr, y.2 = true → touchesFlag uid y.1 = false :=
      fun y hy => hall y (List.mem_cons_of_mem x hy)
    cases hx2 : x.2 with
    | false =>
      simp only [Bool.false_eq_true, if_false]
      exact ih st uid hrest
    | true =>
      simp only [if_true]
      rw [ih _ uid hrest,
        flagById_applyMutation_no_touch st x.1 uid
          (hall x (List.mem_cons_self x tr) hx2)]

theorem dictSet_keys_nodup (d : List (String × String)) (k v : String)
    (h : (d.map Prod.fst).Nodup) : ((dictSet d k v).map Prod.fst).Nodup := by
  unfold dictSet
  by_cases hf : (List.find? (fun p => p.1 == k) d).isSome
  · rw [if_pos hf]
    have hkeys : (d.map (fun p => if p.1 == k then (k, v) else p)).map
        Prod.fst = d.map Prod.fst := by
      rw [List.map_map]
      apply List.map_congr_left
      intro p _
      by_cases hp : p.1 = k
      · simp [hp]
      · simp [hp]
    rw [hkeys]
    exact h
  · rw [if_neg hf]
    have hk : k ∉ d.map Prod.fst := by
      intro hmem
      rcases List.mem_map.mp hmem with ⟨p, hp, hpk⟩
      refine hf ?_
      rw [List.find?_isSome]
      exact ⟨p, hp, by simp [hpk]⟩
    rw [List.map_append]
    simp [List.nodup_append, h, hk]

theorem trackFold_keys_nodup (enum : Finset String → List String)
    (s : Finset String) (role : String) (d : List (String × String))
    (h : (d.map Prod.fst).Nodup) :
    ((track_desired_roles enum s role d).map Prod.fst).Nodup := by
  unfold track_desired_roles
  generalize enum s = l
  induction l generalizing d with
  | nil => exact h
  | cons e l ih =>
    rw [List.foldl_cons]
    exact ih _ (dictSet_keys_nodup _ _ _ h)

theorem dictGet_of_mem :
    ∀ d : List (String × String), (d.map Prod.fst).Nodup →
      ∀ p ∈ d, dictGet d p.1 = some p.2 := by
  intro d
  induction d with
  | nil =>
    intro _ p hp
    exact absurd hp (List.not_mem_nil p)
  | cons q d ih =>
    intro hnodup p hp
    simp only [List.map_cons] at hnodup
    rcases List.nodup_cons.mp hnodup with ⟨hq, hd⟩
    rcases List.mem_cons.mp hp with h | h
    · subst h
      rw [dictGet_cons, if_pos rfl]
    · rw [dictGet_cons]
      have hne : q.1 ≠ p.1 := by
        intro hEq
        exact hq (hEq ▸ List.mem_map.mpr ⟨p, h, rfl⟩)
      rw [if_neg hne]
      exact ih hd p h

theorem track_entry_from_nil (enum : Finset String → List String)
    (henum : ValidEnum enum) (s : Finset String) (role : String) :
    ∀ p ∈ track_desired_roles enum s role [],
      p.1 ∈ s ∧ p.2 = get_highest_role "Viewer" role := by
  intro p hp
  have hkeys := trackFold_keys_nodup enum s role [] (by simp)
  have hget := dictGet_of_mem _ hkeys p hp
  rw [dictGet_track_desired_roles enum henum s role [] p.1] at hget
  by_cases h : p.1 ∈ s
  · rw [if_pos h] at hget
    exact ⟨h, (Option.some.inj hget).symm⟩
  · rw [if_neg h] at hget
    exact Option.noConfusion hget

theorem addTrace_envOf (groups : String → Except Unit (List OktaMember))
    (enum : Finset String → List String) (el : Rat) (st : SinkState)
    (e : String) :
    addTrace (envOf groups enum el st) false 1 e =
      (findByEmail st e).map (fun su => (.addToTeam 1 su.id, true)) := by
  cases hf : findByEmail st e with
  | none => simp [addTrace, envOf, lookupUser, hf]
  | some su => simp [addTrace, envOf, lookupUser, hf]

theorem removeTrace_envOf (groups : String → Except Unit (List OktaMember))
    (enum : Finset String → List String) (el : Rat) (st : SinkState)
    (mems : List TeamMember) (e : String) :
    removeTrace (envOf groups enum el st) false 1 mems e =
      (mems.find? (fun m => lower m.email == e)).map
        (fun mem => (.removeFromTeam 1 mem.userId, true)) := by
  cases hf : mems.find? (fun m => lower m.email == e) with
  | none => simp [removeTrace, envOf, hf]
  | some mem => simp [removeTrace, envOf, hf]

theorem applyTrace_adds (groups : String → Except Unit (List OktaMember))
    (enum : Finset String → List String) (el : Rat) (st0 : SinkState)
    (hids : (st0.users.map SinkUser.id).Nodup) :
    ∀ (l : List String) (st : SinkState), st.users = st0.users →
      applyTrace st
          (l.filterMap (addTrace (envOf groups enum el st0) false 1)) =
        { st with team := st.team ++ l.filterMap (provisionedMember st0) } := by
  intro l
  induction l with
  | nil =>
    intro st hst
    simp [applyTrace]
  | cons e l ih =>
    intro st hst
    rw [List.filterMap_cons, List.filterMap_cons, addTrace_envOf]
    cases hf : findByEmail st0 e with
    | none =>
      simp only [provisionedMember, hf, Option.map_none]
      exact ih st hst
    | some su =>
      simp only [provisionedMember, hf, Option.map_some']
      have hsu_mem : su ∈ st0.users := List.mem_of_find?_eq_some hf
      have hfind_id : st0.users.find? (fun u => u.id == su.id) = some su :=
        find?_key_unique SinkUser.id st0.users hids su hsu_mem
      have hmu : applyMutation st (.addToTeam 1 su.id) =
          { st with team := st.team ++ [⟨su.email, su.id⟩] } := by
        simp only [applyMutation]
        rw [hst, hfind_id]
      have hstep : applyTrace st
          (((Mutation.addToTeam 1 su.id, true)) ::
            l.filterMap (addTrace (envOf groups enum el st0) false 1)) =
          applyTrace (applyMutation st (.addToTeam 1 su.id))
            (l.filterMap (addTrace (envOf groups enum el st0) false 1)) :=
        rfl
      rw [hstep, hmu, ih _ (by rw [hst])]
      simp

theorem applyTrace_removes
    (groups : String → Except Unit (List OktaMember))
    (enum : Finset String → List String) (el : Rat) (st0 : SinkState)
    (mems : List TeamMember) :
    ∀ (l : List String) (st : SinkState),
      applyTrace st
          (l.filterMap (removeTrace (envOf groups enum el st0) false 1 mems)) =
        { st with team :=
            st.team.filter (fun m =>
              !((l.filterMap (removalId mems)).contains m.userId)) } := by
  intro l
  induction l with
  | nil =>
    intro st
    simp [applyTrace]
  | cons e l ih =>
    intro st
    rw [List.filterMap_cons, List.filterMap_cons, removeTrace_envOf]
    cases hf : mems.find? (fun m => lower m.email == e) with
    | none =>
      simp only [removalId, hf, Option.map_none]
      exact ih st
    | some mem =>
      simp only [removalId, hf, Option.map_some']
      have hstep : applyTrace st
          (((Mutation.removeFromTeam 1 mem.userId, true)) ::
            l.filterMap (removeTrace (envOf groups enum el st0) false 1 mems)) =
          applyTrace (applyMutation st (.removeFromTeam 1 mem.userId))
            (l.filterMap (removeTrace (envOf groups enum el st0) false 1 mems)) :=
        rfl
      rw [hstep]
      have hmu : applyMutation st (.removeFromTeam 1 mem.userId) =
          { st with team :=
              st.team.filter (fun m => m.userId != mem.userId) } := rfl
      rw [hmu, ih]
      simp only [List.filter_filter]
      congr 1
      apply List.filter_congr
      intro m _
      rw [List.contains_cons, Bool.not_or, Bool.and_comm]
      rfl

theorem users_inj_id (st : SinkState) (hwf : WF st) :
    ∀ u1 ∈ st.users, ∀ u2 ∈ st.users, u1.id = u2.id → u1 = u2 :=
  fun u1 h1 u2 h2 h => List.inj_on_of_nodup_map hwf.1 h1 h2 h

theorem team_inj_email (st : SinkState) (hwf : WF st) :
    ∀ m1 ∈ st.team, ∀ m2 ∈ st.team,
      lower m1.email = lower m2.email → m1 = m2 :=
  fun m1 h1 m2 h2 h => List.inj_on_of_nodup_map hwf.2.2.1 h1 h2 h

theorem team_inj_id (st : SinkState) (hwf : WF st) :
    ∀ m1 ∈ st.team, ∀ m2 ∈ st.team, m1.userId = m2.userId → m1 = m2 := by
  intro m1 h1 m2 h2 h
  rcases hwf.2.2.2 m1 h1 with ⟨u1, hu1, hid1, hem1⟩
  rcases hwf.2.2.2 m2 h2 with ⟨u2, hu2, hid2, hem2⟩
  have : u1 = u2 :=
    users_inj_id st hwf u1 hu1 u2 hu2 (by rw [hid1, hid2, h])
  exact team_inj_email st hwf m1 h1 m2 h2
    (by rw [← hem1, ← hem2, this])

theorem mem_removalIds (st0 : SinkState) (okta_members : List OktaMember)
    (enum : Finset String → List String) (henum : ValidEnum enum)
    (uid : Nat)
    (h : uid ∈ (enum (sync_to_remove okta_members st0.team)).filterMap
      (removalId st0.team)) :
    ∃ mem ∈ st0.team, uid = mem.userId ∧
      lower mem.email ∈ sync_to_remove okta_members st0.team := by
  rcases List.mem_filterMap.mp h with ⟨er, her, hrid⟩
  unfold removalId at hrid
  cases hf : st0.team.find? (fun m => lower m.email == er) with
  | none =>
    rw [hf] at hrid
    exact Option.noConfusion hrid
  | some mem =>
    rw [hf] at hrid
    have hpred : lower mem.email = er := by
      have := List.find?_some hf
      simpa using this
    have her2 : er ∈ sync_to_remove okta_members st0.team := by
      rw [← (henum (sync_to_remove okta_members st0.team)).2]
      exact List.mem_toFinset.mpr her
    exact ⟨mem, List.mem_of_find?_eq_some hf,
      by simpa using hrid.symm, by rw [hpred]; exact her2⟩

theorem team1_mem
    (st0 : SinkState) (okta_members : List OktaMember)
    (enum : Finset String → List String)
    (henum : ValidEnum enum) (hwf : WF st0) (e : String) :
    e ∈ grafanaEmails ((st0.team ++
        (enum (sync_to_add okta_members st0.team)).filterMap
          (provisionedMember st0)).filter (fun m =>
        !(((enum (sync_to_remove okta_members st0.team)).filterMap
            (removalId st0.team)).contains m.userId))) ↔
      ((e ∈ grafanaEmails st0.team ∧ e ∈ oktaEmails okta_members) ∨
        (e ∈ sync_to_add okta_members st0.team ∧
          (findByEmail st0 e).isSome)) := by
  rw [mem_grafanaEmails]
  constructor
  · rintro ⟨m, hm, hme⟩
    rcases List.mem_filter.mp hm with ⟨hmem, hpred⟩
    rcases List.mem_append.mp hmem with hteam | hP
    · refine Or.inl ⟨mem_grafanaEmails st0.team e |>.mpr ⟨m, hteam, hme⟩, ?_⟩
      by_contra hno
      have hrem : e ∈ sync_to_remove okta_members st0.team := by
        unfold sync_to_remove
        rw [Finset.mem_sdiff]
        exact ⟨(mem_grafanaEmails st0.team e).mpr ⟨m, hteam, hme⟩, hno⟩
      have hfind : (st0.team.find? (fun m2 => lower m2.email == e)).isSome := by
        rw [List.find?_isSome]
        exact ⟨m, hteam, by simp [hme]⟩
      rcases Option.isSome_iff_exists.mp hfind with ⟨mem, hf⟩
      have hmeme : lower mem.email = e := by
        have := List.find?_some hf
        simpa using this
      have hsame : m = mem :=
        team_inj_email st0 hwf m hteam mem (List.mem_of_find?_eq_some hf)
          (by rw [hme, hmeme])
      have hin : mem.userId ∈
          (enum (sync_to_remove okta_members st0.team)).filterMap
            (removalId st0.team) := by
        apply List.mem_filterMap.mpr
        refine ⟨e, ?_, ?_⟩
        · rw [← List.mem_toFinset,
            (henum (sync_to_remove okta_members st0.team)).2]
          exact hrem
        · unfold removalId
          rw [hf]
          rfl
      rw [hsame] at hpred
      exact absurd hpred (by simp [List.elem_iff, hin])
    · rcases List.mem_filterMap.mp hP with ⟨ea, hea, hprov⟩
      unfold provisionedMember at hprov
      cases hfe : findByEmail st0 ea with
      | none =>
        rw [hfe] at hprov
        exact Option.noConfusion hprov
      | some su =>
        rw [hfe] at hprov
        have hm_eq : m = ⟨su.email, su.id⟩ := by simpa using hprov.symm
        have hsu_email : lower su.email = ea := by
          have := List.find?_some hfe
          simpa using this
        have he_ea : e = ea := by
          rw [← hme, hm_eq, ← hsu_email]
        refine Or.inr ⟨?_, ?_⟩
        · rw [he_ea, ← (henum (sync_to_add okta_members st0.team)).2]
          exact List.mem_toFinset.mpr hea
        · rw [he_ea, hfe]
          rfl
  · rintro (⟨hteam, hokta⟩ | ⟨hadd, hsome⟩)
    · rcases (mem_grafanaEmails st0.team e).mp hteam with ⟨m, hm, hme⟩
      refine ⟨m, ?_, hme⟩
      apply List.mem_filter.mpr
      refine ⟨List.mem_append.mpr (Or.inl hm), ?_⟩
      have hnotin : m.userId ∉
          (enum (sync_to_remove okta_members st0.team)).filterMap
            (removalId st0.team) := by
        intro hin
        rcases mem_removalIds st0 okta_members enum henum m.userId
          hin with ⟨mem, hmemt, hid, hrem⟩
        have hsame : m = mem := team_inj_id st0 hwf m hm mem hmemt hid
        rw [hsame] at hme
        rw [hme] at hrem
        unfold sync_to_remove at hrem
        rw [Finset.mem_sdiff] at hrem
        exact hrem.2 hokta
      simp [List.elem_iff, hnotin]
    · rcases Option.isSome_iff_exists.mp hsome with ⟨su, hfe⟩
      have hsu_email : lower su.email = e := by
        have := List.find?_some hfe
        simpa using this
      refine ⟨⟨su.email, su.id⟩, ?_, hsu_email⟩
      apply List.mem_filter.mpr
      constructor
      · apply List.mem_append.mpr
        refine Or.inr (List.mem_filterMap.mpr ⟨e, ?_, ?_⟩)
        · rw [← List.mem_toFinset,
            (henum (sync_to_add okta_members st0.team)).2]
          exact hadd
        · unfold provisionedMember
          rw [hfe]
          rfl
      · have hnotin : su.id ∉
            (enum (sync_to_remove okta_members st0.team)).filterMap
              (removalId st0.team) := by
          intro hin
          rcases mem_removalIds st0 okta_members enum henum su.id
            hin with ⟨mem, hmemt, hid, hrem⟩
          rcases hwf.2.2.2 mem hmemt with ⟨ur, hur, hurid, hurem⟩
          have hsu_mem : su ∈ st0.users := List.mem_of_find?_eq_some hfe
          have hsur : su = ur :=
            users_inj_id st0 hwf su hsu_mem ur hur (by rw [hurid, ← hid])
          have hee : e = lower mem.email := by
            rw [← hsu_email, hsur, hurem]
          rw [← hee] at hrem
          unfold sync_to_remove at hrem
          rw [Finset.mem_sdiff] at hrem
          unfold sync_to_add at hadd
          rw [Finset.mem_sdiff] at hadd
          exact hrem.2 hadd.1
        simp [List.elem_iff, hnotin]

theorem roleTraceEntry_envOf (groups : String → Except Unit (List OktaMember))
    (enum : Finset String → List String) (el : Rat) (st : SinkState)
    (p : String × String) :
    roleTraceEntry (envOf groups enum el st) false p =
      match findByEmail st p.1 with
      | some su =>
          if su.role != p.2 then some (.updateRole su.id p.2, true) else none
      | none => none := by
  cases hf : findByEmail st p.1 with
  | none => simp [roleTraceEntry, envOf, lookupUser, hf]
  | some su => simp [roleTraceEntry, envOf, lookupUser, hf]

theorem roleTrace_usersOnly (env : SyncEnv) (dry : Bool)
    (p : String × String) (x : Mutation × Bool)
    (h : roleTraceEntry env dry p = some x) : usersOnly x.1 = true := by
  unfold roleTraceEntry at h
  cases hu : env.getUserByEmail p.1 with
  | error u =>
    rw [hu] at h
    exact Option.noConfusion h
  | ok ou =>
    cases ou with
    | none =>
      rw [hu] at h
      exact Option.noConfusion h
    | some user =>
      rw [hu] at h
      dsimp only at h
      split_ifs at h
      injection h with h2
      rw [← h2]
      rfl

theorem roleTrace_touchesFlag_false (env : SyncEnv) (dry : Bool)
    (p : String × String) (x : Mutation × Bool) (uid : Nat)
    (h : roleTraceEntry env dry p = some x) : touchesFlag uid x.1 = false := by
  unfold roleTraceEntry at h
  cases hu : env.getUserByEmail p.1 with
  | error u =>
    rw [hu] at h
    exact Option.noConfusion h
  | ok ou =>
    cases ou with
    | none =>
      rw [hu] at h
      exact Option.noConfusion h
    | some user =>
      rw [hu] at h
      dsimp only at h
      split_ifs at h
      injection h with h2
      rw [← h2]
      rfl

theorem adminTrace_shape (env : SyncEnv) (s : Finset String) (u : OrgUser)
    (x : Mutation × Bool) (h : adminTraceEntry env false s u = some x) :
    x.1 = .setAdmin u.userId (decide (lower u.email ∈ s)) := by
  unfold adminTraceEntry at h
  split_ifs at h
  injection h with h2
  rw [← h2]

theorem adminTrace_usersOnly (env : SyncEnv) (s : Finset String)
    (u : OrgUser) (x : Mutation × Bool)
    (h : adminTraceEntry env false s u = some x) : usersOnly x.1 = true := by
  rw [adminTrace_shape env s u x h]
  rfl

theorem adminTrace_touchesRole_false (env : SyncEnv) (s : Finset String)
    (u : OrgUser) (x : Mutation × Bool) (uid : Nat)
    (h : adminTraceEntry env false s u = some x) :
    touchesRole uid x.1 = false := by
  rw [adminTrace_shape env s u x h]
  rfl

theorem map_id_of_skeleton (l : List SinkUser) (F : SinkUser → SinkUser)
    (hk : ∀ u, (F u).id = u.id) :
    (l.map F).map SinkUser.id = l.map SinkUser.id := by
  rw [List.map_map]
  exact List.map_congr_left (fun a _ => hk a)

theorem map_email_of_skeleton (l : List SinkUser) (F : SinkUser → SinkUser)
    (hk : ∀ u, (F u).email = u.email) :
    (l.map F).map (fun u => lower u.email) =
      l.map (fun u => lower u.email) := by
  rw [List.map_map]
  refine List.map_congr_left (fun a _ => ?_)
  simp [Function.comp, hk a]

theorem findByEmail_skeleton (st st2 : SinkState) (F : SinkUser → SinkUser)
    (h : st2.users = st.users.map F) (hk : ∀ u, (F u).email = u.email)
    (e : String) : findByEmail st2 e = (findByEmail st e).map F := by
  unfold findByEmail
  rw [h]
  exact find?_map_stable F (fun u => lower u.email == e)
    (fun u => by simp only []; rw [hk u]) st.users

theorem userById_skeleton (st st2 : SinkState) (F : SinkUser → SinkUser)
    (h : st2.users = st.users.map F) (hk : ∀ u, (F u).id = u.id)
    (uid : Nat) : userById st2 uid = (userById st uid).map F := by
  unfold userById
  rw [h]
  exact find?_map_stable F (fun u => u.id == uid)
    (fun u => by simp only []; rw [hk u]) st.users

theorem tick_out1_spec (c : TickCfg) (okta : List OktaMember)
    (hgroup : c.groups c.g = .ok okta) :
    c.out1.raised = false ∧
    c.out1.trace =
      (c.enum (sync_to_add okta c.st0.team)).filterMap
        (addTrace (envOf c.groups c.enum c.el c.st0) false 1) ++
      (c.enum (sync_to_remove okta c.st0.team)).filterMap
        (removeTrace (envOf c.groups c.enum c.el c.st0) false 1
          c.st0.team) ∧
    c.out1.desired =
      track_desired_roles c.enum (oktaEmails okta) c.role [] := by
  obtain ⟨hr, _, _, _, htr, hdes, _, _⟩ :=
    sync_ok_components (envOf c.groups c.enum c.el c.st0) false c.g c.t
      c.role [] okta 1 c.st0.team hgroup rfl rfl
  exact ⟨hr, htr, hdes⟩

theorem tick_st1_eq (c : TickCfg) (okta : List OktaMember)
    (hwf : WF c.st0) (hgroup : c.groups c.g = .ok okta) :
    c.st1 = { c.st0 with team :=
      (c.st0.team ++ (c.enum (sync_to_add okta c.st0.team)).filterMap
          (provisionedMember c.st0)).filter (fun m =>
        !(((c.enum (sync_to_remove okta c.st0.team)).filterMap
            (removalId c.st0.team)).contains m.userId)) } := by
  unfold TickCfg.st1
  rw [(tick_out1_spec c okta hgroup).2.1, applyTrace_append,
    applyTrace_adds c.groups c.enum c.el c.st0 hwf.1 _ c.st0 rfl,
    applyTrace_removes c.groups c.enum c.el c.st0 c.st0.team _ _]

theorem tick_st1_users (c : TickCfg) (okta : List OktaMember)
    (hwf : WF c.st0) (hgroup : c.groups c.g = .ok okta) :
    c.st1.users = c.st0.users := by
  rw [tick_st1_eq c okta hwf hgroup]

theorem tick_rp_trace (c : TickCfg) :
    c.rp1.2 = c.out1.desired.filterMap
      (roleTraceEntry (envOf c.groups c.enum c.el c.st1) false) := by
  unfold TickCfg.rp1 update_user_roles
  rw [roleLoop_trace]
  simp

theorem tick_ap_nil (c : TickCfg) (hnil : c.gs = []) : c.ap1 = (0, []) := by
  unfold TickCfg.ap1 sync_admin_privileges
  rw [if_pos hnil]

theorem tick_ap_ok (c : TickCfg) (hgs : c.gs ≠ []) :
    c.ap1 = (((orgUsersOf c.st2).filter
        (adminUpd (envOf c.groups c.enum c.el c.st2) false
          (adminUnion (envOf c.groups c.enum c.el c.st2) c.gs))).length,
      (orgUsersOf c.st2).filterMap
        (adminTraceEntry (envOf c.groups c.enum c.el c.st2) false
          (adminUnion (envOf c.groups c.enum c.el c.st2) c.gs))) :=
  admin_sync_ok (envOf c.groups c.enum c.el c.st2) false c.gs
    (orgUsersOf c.st2) hgs rfl

theorem tick_st3_decomp (c : TickCfg) :
    c.st3 = applyTrace c.st1 (c.rp1.2 ++ c.ap1.2) := by
  unfold TickCfg.st3 TickCfg.st2
  rw [applyTrace_append]

theorem tick_usersOnly (c : TickCfg) :
    ∀ x ∈ c.rp1.2 ++ c.ap1.2, usersOnly x.1 = true := by
  intro x hx
  rcases List.mem_append.mp hx with hx | hx
  · rw [tick_rp_trace c] at hx
    rcases List.mem_filterMap.mp hx with ⟨p, _, hp⟩
    exact roleTrace_usersOnly _ _ p x hp
  · by_cases hnil : c.gs = []
    · rw [tick_ap_nil c hnil] at hx
      exact absurd hx (List.not_mem_nil x)
    · rw [tick_ap_ok c hnil] at hx
      rcases List.mem_filterMap.mp hx with ⟨u, _, hu⟩
      exact adminTrace_usersOnly _ _ u x hu

theorem tick_st3_team (c : TickCfg) : c.st3.team = c.st1.team := by
  rw [tick_st3_decomp]
  exact applyTrace_team_of_usersOnly _ c.st1 (tick_usersOnly c)

theorem tick_st3_skeleton (c : TickCfg) :
    ∃ F : SinkUser → SinkUser, c.st3.users = c.st1.users.map F ∧
      ∀ u, (F u).email = u.email ∧ (F u).id = u.id := by
  rw [tick_st3_decomp]
  exact applyTrace_users_skeleton _ c.st1

theorem tick_team3_mem (c : TickCfg) (okta : List OktaMember)
    (henum : ValidEnum c.enum) (hwf : WF c.st0)
    (hgroup : c.groups c.g = .ok okta) :
    ∀ e, e ∈ grafanaEmails c.st3.team ↔
      ((e ∈ grafanaEmails c.st0.team ∧ e ∈ oktaEmails okta) ∨
        (e ∈ sync_to_add okta c.st0.team ∧ (findByEmail c.st0 e).isSome)) := by
  intro e
  rw [tick_st3_team c, tick_st1_eq c okta hwf hgroup]
  exact team1_mem c.st0 okta c.enum henum hwf e

theorem tick_to_remove2_empty (c : TickCfg) (okta : List OktaMember)
    (henum : ValidEnum c.enum) (hwf : WF c.st0)
    (hgroup : c.groups c.g = .ok okta) :
    sync_to_remove okta c.st3.team = ∅ := by
  apply Finset.eq_empty_iff_forall_not_mem.mpr
  intro e he
  unfold sync_to_remove at he
  rw [Finset.mem_sdiff] at he
  rcases (tick_team3_mem c okta henum hwf hgroup e).mp he.1 with
    ⟨_, hok⟩ | ⟨hadd, _⟩
  · exact he.2 hok
  · unfold sync_to_add at hadd
    rw [Finset.mem_sdiff] at hadd
    exact he.2 hadd.1

theorem tick_to_add2_none (c : TickCfg) (okta : List OktaMember)
    (henum : ValidEnum c.enum) (hwf : WF c.st0)
    (hgroup : c.groups c.g = .ok okta) :
    ∀ e ∈ sync_to_add okta c.st3.team, lookupUser c.st3 e = none := by
  intro e he
  unfold sync_to_add at he
  rw [Finset.mem_sdiff] at he
  have hnone : findByEmail c.st0 e = none := by
    cases hfe : findByEmail c.st0 e with
    | none => rfl
    | some su =>
      exfalso
      apply he.2
      apply (tick_team3_mem c okta henum hwf hgroup e).mpr
      by_cases hteam0 : e ∈ grafanaEmails c.st0.team
      · exact Or.inl ⟨hteam0, he.1⟩
      · refine Or.inr ⟨?_, by rw [hfe]; rfl⟩
        unfold sync_to_add
        rw [Finset.mem_sdiff]
        exact ⟨he.1, hteam0⟩
  obtain ⟨F, hF, hFk⟩ := tick_st3_skeleton c
  have hst3_users : c.st3.users = c.st0.users.map F := by
    rw [hF, tick_st1_users c okta hwf hgroup]
  unfold lookupUser
  rw [findByEmail_skeleton c.st0 c.st3 F hst3_users
    (fun u => (hFk u).1) e, hnone]
  rfl

theorem tick_run2 (c : TickCfg) (okta : List OktaMember)
    (henum : ValidEnum c.enum) (hwf : WF c.st0)
    (hgroup : c.groups c.g = .ok okta) :
    c.out2.metrics.users_added = 0 ∧
    c.out2.metrics.users_removed = 0 ∧
    c.out2.trace = [] := by
  obtain ⟨_, hua, hur, _, htr, _, _, _⟩ :=
    sync_ok_components (envOf c.groups c.enum c.el c.st3) false c.g c.t
      c.role [] okta 1 c.st3.team hgroup rfl rfl
  have hrem := tick_to_remove2_empty c okta henum hwf hgroup
  have hnone := tick_to_add2_none c okta henum hwf hgroup
  have henum_rem : c.enum (sync_to_remove okta c.st3.team) = [] := by
    rw [hrem]
    exact (List.toFinset_eq_empty_iff _).mp (henum (∅ : Finset String)).2
  have henv : (envOf c.groups c.enum c.el c.st3).enum = c.enum := rfl
  rw [henv] at hua hur htr
  unfold TickCfg.out2
  refine ⟨?_, ?_, ?_⟩
  · rw [hua, length_filter_enum c.enum henum]
    rw [Finset.filter_false_of_mem, Finset.card_empty]
    intro e he
    have : addSucceeds (envOf c.groups c.enum c.el c.st3) false 1 e
        = false := by
      unfold addSucceeds
      have hl := hnone e he
      simp only [envOf]
      rw [hl]
    simp [this]
  · rw [hur, length_filter_enum c.enum henum, hrem]
    simp
  · rw [htr, henum_rem]
    simp only [List.filterMap_nil, List.append_nil]
    apply List.filterMap_eq_nil.mpr
    intro e he
    have hee : e ∈ sync_to_add okta c.st3.team := by
      rw [← (henum (sync_to_add okta c.st3.team)).2]
      exact List.mem_toFinset.mpr he
    unfold addTrace
    have hl := hnone e hee
    simp only [envOf]
    rw [hl]

theorem tick_ap_no_role_touch (c : TickCfg) (uid : Nat) :
    ∀ x ∈ c.ap1.2, x.2 = true → touchesRole uid x.1 = false := by
  intro x hx _
  by_cases hnil : c.gs = []
  · rw [tick_ap_nil c hnil] at hx
    exact absurd hx (List.not_mem_nil x)
  · rw [tick_ap_ok c hnil] at hx
    rcases List.mem_filterMap.mp hx with ⟨u, _, hu⟩
    exact adminTrace_touchesRole_false _ _ u x uid hu

theorem tick_roleUpd_false (c : TickCfg) (okta : List OktaMember)
    (henum : ValidEnum c.enum) (hwf : WF c.st0)
    (hgroup : c.groups c.g = .ok okta) :
    ∀ p ∈ track_desired_roles c.enum (oktaEmails okta) c.role [],
      roleUpd (envOf c.groups c.enum c.el c.st3) false p = false := by
  intro p hp
  have hst1_users := tick_st1_users c okta hwf hgroup
  have hids1 : (c.st1.users.map SinkUser.id).Nodup := by
    rw [hst1_users]
    exact hwf.1
  cases hfe : findByEmail c.st1 p.1 with
  | none =>
    obtain ⟨F, hF, hFk⟩ := tick_st3_skeleton c
    have hnone3 : findByEmail c.st3 p.1 = none := by
      rw [findByEmail_skeleton c.st1 c.st3 F hF (fun u => (hFk u).1) p.1,
        hfe]
      rfl
    unfold roleUpd
    simp only [envOf]
    unfold lookupUser
    rw [hnone3]
    rfl
  | some su =>
    have hsu_mem : su ∈ c.st1.users := List.mem_of_find?_eq_some hfe
    have hsu_email : lower su.email = p.1 := by
      simpa using List.find?_some hfe
    have hbyid1 : userById c.st1 su.id = some su :=
      find?_key_unique SinkUser.id c.st1.users hids1 su hsu_mem
    have hkeys : ((track_desired_roles c.enum (oktaEmails okta) c.role
        []).map Prod.fst).Nodup :=
      trackFold_keys_nodup c.enum (oktaEmails okta) c.role [] (by simp)
    obtain ⟨D1, D2, hD⟩ := List.append_of_mem hp
    have hkeysD : ∀ q, (q ∈ D1 ∨ q ∈ D2) → q.1 ≠ p.1 := by
      rw [hD] at hkeys
      have hmap : (D1.map Prod.fst ++ p.1 :: D2.map Prod.fst).Nodup := by
        simpa using hkeys

      intro q hq hqp
      rcases hq with hq | hq
      · have h1 : q.1 ∈ D1.map Prod.fst := List.mem_map.mpr ⟨q, hq, rfl⟩
        have hdisj := (List.nodup_append.mp hmap).2.2
        exact hdisj h1 (by rw [hqp]; exact List.mem_cons_self _ _)
      · have h2 := (List.nodup_append.mp hmap).2.1
        rcases List.nodup_cons.mp h2 with ⟨hnotin, _⟩
        exact hnotin (by rw [← hqp]; exact List.mem_map.mpr ⟨q, hq, rfl⟩)
    have hdes1 := (tick_out1_spec c okta hgroup).2.2
    have hrp : c.rp1.2 = (D1 ++ p :: D2).filterMap
        (roleTraceEntry (envOf c.groups c.enum c.el c.st1) false) := by
      rw [tick_rp_trace c, hdes1, hD]
    have hnt : ∀ L : List (String × String), (∀ q ∈ L, q.1 ≠ p.1) →
        ∀ x ∈ L.filterMap
          (roleTraceEntry (envOf c.groups c.enum c.el c.st1) false),
          x.2 = true → touchesRole su.id x.1 = false := by
      intro L hL x hx _
      rcases List.mem_filterMap.mp hx with ⟨q, hqL, hq⟩
      rw [roleTraceEntry_envOf] at hq
      cases hfq : findByEmail c.st1 q.1 with
      | none =>
        rw [hfq] at hq
        exact Option.noConfusion hq
      | some sq =>
        rw [hfq] at hq
        dsimp only at hq
        split_ifs at hq
        injection hq with h2
        rw [← h2]
        have hneq : sq.id ≠ su.id := by
          intro hEq
          have hsq_mem : sq ∈ c.st1.users := List.mem_of_find?_eq_some hfq
          have hsq_su : sq = su :=
            List.inj_on_of_nodup_map hids1 hsq_mem hsu_mem hEq
          have hsq_email : lower sq.email = q.1 := by
            simpa using List.find?_some hfq
          exact hL q hqL (by rw [← hsq_email, hsq_su, hsu_email])
        simp [touchesRole, hneq]
    have hrole2 : roleById c.st2 su.id = some p.2 := by
      unfold TickCfg.st2
      rw [hrp, List.filterMap_append, List.filterMap_cons,
        roleTraceEntry_envOf, hfe]
      dsimp only
      by_cases hd : (su.role != p.2) = true
      · rw [if_pos hd]
        dsimp only
        rw [applyTrace_append]
        have hstep : ∀ Y : SinkState, applyTrace Y
            ((Mutation.updateRole su.id p.2, true) ::
              D2.filterMap
                (roleTraceEntry (envOf c.groups c.enum c.el c.st1)
                  false)) =
            applyTrace (applyMutation Y (.updateRole su.id p.2))
              (D2.filterMap
                (roleTraceEntry (envOf c.groups c.enum c.el c.st1)
                  false)) := fun Y => rfl
        rw [hstep, roleById_applyTrace_no_touch _ _ su.id
            (hnt D2 (fun q hq => hkeysD q (Or.inr hq))),
          roleById_applyMutation_touch,
          roleById_applyTrace_no_touch _ _ su.id
            (hnt D1 (fun q hq => hkeysD q (Or.inl hq)))]
        unfold roleById
        rw [hbyid1]
        rfl
      · rw [if_neg hd]
        dsimp only
        rw [applyTrace_append,
          roleById_applyTrace_no_touch _ _ su.id
            (hnt D2 (fun q hq => hkeysD q (Or.inr hq))),
          roleById_applyTrace_no_touch _ _ su.id
            (hnt D1 (fun q hq => hkeysD q (Or.inl hq)))]
        unfold roleById
        rw [hbyid1]
        have hsp : su.role = p.2 := by
          have hfalse : (su.role != p.2) = false := by
            cases hb : su.role != p.2
            · rfl
            · exact absurd hb hd
          exact bne_eq_false_iff_eq.mp hfalse
        simp [hsp]
    have hrole3 : roleById c.st3 su.id = some p.2 := by
      unfold TickCfg.st3
      rw [roleById_applyTrace_no_touch c.ap1.2 c.st2 su.id
        (tick_ap_no_role_touch c su.id)]
      exact hrole2
    obtain ⟨F, hF, hFk⟩ := tick_st3_skeleton c
    have hfind3 : findByEmail c.st3 p.1 = some (F su) := by
      rw [findByEmail_skeleton c.st1 c.st3 F hF (fun u => (hFk u).1) p.1,
        hfe]
      rfl
    have hbyid3 : userById c.st3 su.id = some (F su) := by
      rw [userById_skeleton c.st1 c.st3 F hF (fun u => (hFk u).2) su.id,
        hbyid1]
      rfl
    have hFrole : (F su).role = p.2 := by
      have hr : roleById c.st3 su.id = some ((F su).role) := by
        unfold roleById
        rw [hbyid3]
        rfl
      rw [hr] at hrole3
      exact Option.some.inj hrole3
    unfold roleUpd
    simp only [envOf]
    unfold lookupUser
    rw [hfind3]
    simp [hFrole]

theorem tick_role2_zero (c : TickCfg) (okta : List OktaMember)
    (henum : ValidEnum c.enum) (hwf : WF c.st0)
    (hgroup : c.groups c.g = .ok okta) :
    (update_user_roles (envOf c.groups c.enum c.el c.st3) false
      c.out2.desired).1 = 0 := by
  have hdes2 : c.out2.desired =
      track_desired_roles c.enum (oktaEmails okta) c.role [] := by
    obtain ⟨_, _, _, _, _, hdes, _, _⟩ :=
      sync_ok_components (envOf c.groups c.enum c.el c.st3) false c.g c.t
        c.role [] okta 1 c.st3.team hgroup rfl rfl
    exact hdes
  rw [hdes2]
  unfold update_user_roles
  rw [roleLoop_count]
  simp only [Nat.zero_add]
  have hempty : (track_desired_roles c.enum (oktaEmails okta) c.role
      []).filter (roleUpd (envOf c.groups c.enum c.el c.st3) false) = [] := by
    apply List.filter_eq_nil.mpr
    intro p hp
    simp [tick_roleUpd_false c okta henum hwf hgroup p hp]
  rw [hempty]
  rfl

theorem adminTraceEntry_envOf
    (groups : String → Except Unit (List OktaMember))
    (enum : Finset String → List String) (el : Rat) (st : SinkState)
    (U : Finset String) (u : SinkUser) :
    adminTraceEntry (envOf groups enum el st) false U (toOrg u) =
      if u.isAdmin != decide (lower u.email ∈ U) then
        some (.setAdmin u.id (decide (lower u.email ∈ U)), true)
      else none := by
  unfold adminTraceEntry toOrg envOf
  simp

theorem tick_st2_skeleton (c : TickCfg) :
    ∃ F : SinkUser → SinkUser, c.st2.users = c.st1.users.map F ∧
      ∀ u, (F u).email = u.email ∧ (F u).id = u.id := by
  unfold TickCfg.st2
  exact applyTrace_users_skeleton _ c.st1

theorem adminUnion_congr (env env2 : SyncEnv)
    (h : env.getGroupMembers = env2.getGroupMembers) (gs : List String) :
    adminUnion env gs = adminUnion env2 gs := by
  unfold adminUnion
  rw [h]

theorem tick_ap_flag_no_touch_list (c : TickCfg) (U : Finset String)
    (uid : Nat) (L : List SinkUser) (hnotin : uid ∉ L.map SinkUser.id) :
    ∀ x ∈ L.filterMap (fun u =>
        adminTraceEntry (envOf c.groups c.enum c.el c.st2) false U
          (toOrg u)),
      x.2 = true → touchesFlag uid x.1 = false := by
  intro x hx _
  rcases List.mem_filterMap.mp hx with ⟨u, huL, hu⟩
  rw [adminTrace_shape _ _ _ _ hu]
  have hne : u.id ≠ uid := fun h =>
    hnotin (h ▸ List.mem_map.mpr ⟨u, huL, rfl⟩)
  simp [touchesFlag, toOrg, hne]

theorem tick_admin2_zero (c : TickCfg) (okta : List OktaMember)
    (hwf : WF c.st0) (hgroup : c.groups c.g = .ok okta) :
    (sync_admin_privileges (envOf c.groups c.enum c.el c.st3) false
      c.gs).1 = 0 := by
  by_cases hnil : c.gs = []
  · unfold sync_admin_privileges
    rw [if_pos hnil]
  · rw [admin_sync_ok (envOf c.groups c.enum c.el c.st3) false c.gs
      (orgUsersOf c.st3) hnil rfl]
    dsimp only
    have hflt : (orgUsersOf c.st3).filter
        (adminUpd (envOf c.groups c.enum c.el c.st3) false
          (adminUnion (envOf c.groups c.enum c.el c.st3) c.gs)) = [] := by
      apply List.filter_eq_nil.mpr
      intro ou hou
      obtain ⟨F2, hF2, hF2k⟩ := tick_st2_skeleton c
      have hst2_users : c.st2.users = c.st0.users.map F2 := by
        rw [hF2, tick_st1_users c okta hwf hgroup]
      have hids2 : (c.st2.users.map SinkUser.id).Nodup := by
        rw [hst2_users, map_id_of_skeleton _ F2 (fun u => (hF2k u).2)]
        exact hwf.1
      obtain ⟨F3, hF3, hF3k⟩ : ∃ F : SinkUser → SinkUser,
          c.st3.users = c.st2.users.map F ∧
          ∀ u, (F u).email = u.email ∧ (F u).id = u.id := by
        unfold TickCfg.st3
        exact applyTrace_users_skeleton _ c.st2
      unfold orgUsersOf at hou
      rcases List.mem_map.mp hou with ⟨u3, hu3, hou_eq⟩
      rw [hF3] at hu3
      rcases List.mem_map.mp hu3 with ⟨u2, hu2mem, hu2eq⟩
      obtain ⟨L1, L2, hL⟩ := List.append_of_mem hu2mem
      have hU := adminUnion_congr (envOf c.groups c.enum c.el c.st3)
        (envOf c.groups c.enum c.el c.st2) rfl c.gs
      have hap : c.ap1.2 = (L1 ++ u2 :: L2).filterMap (fun u =>
          adminTraceEntry (envOf c.groups c.enum c.el c.st2) false
            (adminUnion (envOf c.groups c.enum c.el c.st2) c.gs)
            (toOrg u)) := by
        rw [tick_ap_ok c hnil]
        dsimp only
        unfold orgUsersOf
        rw [List.filterMap_map, hL]
        rfl
      have hids2L : ((L1 ++ u2 :: L2).map SinkUser.id).Nodup := by
        rw [← hL]
        exact hids2
      have hnods := List.nodup_append.mp (by simpa using hids2L)
      have hnotin1 : u2.id ∉ L1.map SinkUser.id := by
        intro hin
        exact hnods.2.2 hin (List.mem_cons_self _ _)
      have hnotin2 : u2.id ∉ L2.map SinkUser.id :=
        (List.nodup_cons.mp hnods.2.1).1
      have hbyid2 : userById c.st2 u2.id = some u2 :=
        find?_key_unique SinkUser.id c.st2.users hids2 u2 hu2mem
      have hflag3 : flagById c.st3 u2.id = some (decide (lower u2.email ∈
          adminUnion (envOf c.groups c.enum c.el c.st2) c.gs)) := by
        unfold TickCfg.st3
        rw [hap, List.filterMap_append, List.filterMap_cons,
          adminTraceEntry_envOf]
        by_cases hd : (u2.isAdmin != decide (lower u2.email ∈
            adminUnion (envOf c.groups c.enum c.el c.st2) c.gs)) = true
        · rw [if_pos hd]
          dsimp only
          rw [applyTrace_append]
          have hstep : ∀ Y : SinkState, applyTrace Y
              ((Mutation.setAdmin u2.id (decide (lower u2.email ∈
                  adminUnion (envOf c.groups c.enum c.el c.st2) c.gs)),
                true) :: L2.filterMap (fun u =>
                  adminTraceEntry (envOf c.groups c.enum c.el c.st2)
                    false
                    (adminUnion (envOf c.groups c.enum c.el c.st2) c.gs)
                    (toOrg u))) =
              applyTrace (applyMutation Y (.setAdmin u2.id
                (decide (lower u2.email ∈
                  adminUnion (envOf c.groups c.enum c.el c.st2) c.gs))))
                (L2.filterMap (fun u =>
                  adminTraceEntry (envOf c.groups c.enum c.el c.st2)
                    false
                    (adminUnion (envOf c.groups c.enum c.el c.st2) c.gs)
                    (toOrg u))) := fun Y => rfl
          rw [hstep, flagById_applyTrace_no_touch _ _ u2.id
              (tick_ap_flag_no_touch_list c _ u2.id L2 hnotin2),
            flagById_applyMutation_touch,
            flagById_applyTrace_no_touch _ _ u2.id
              (tick_ap_flag_no_touch_list c _ u2.id L1 hnotin1)]
          unfold flagById
          rw [hbyid2]
          rfl
        · rw [if_neg hd]
          rw [applyTrace_append,
            flagById_applyTrace_no_touch _ _ u2.id
              (tick_ap_flag_no_touch_list c _ u2.id L2 hnotin2),
            flagById_applyTrace_no_touch _ _ u2.id
              (tick_ap_flag_no_touch_list c _ u2.id L1 hnotin1)]
          unfold flagById
          rw [hbyid2]
          have heq : u2.isAdmin = decide (lower u2.email ∈
              adminUnion (envOf c.groups c.enum c.el c.st2) c.gs) := by
            have hfalse : (u2.isAdmin != decide (lower u2.email ∈
                adminUnion (envOf c.groups c.enum c.el c.st2) c.gs))
                = false := by
              cases hb : u2.isAdmin != decide (lower u2.email ∈
                  adminUnion (envOf c.groups c.enum c.el c.st2) c.gs)
              · rfl
              · exact absurd hb hd
            exact bne_eq_false_iff_eq.mp hfalse
          simp [heq]
      have hbyid3 : userById c.st3 u2.id = some (F3 u2) := by
        rw [userById_skeleton c.st2 c.st3 F3 hF3
          (fun u => (hF3k u).2) u2.id, hbyid2]
        rfl
      have hu3flag : u3.isAdmin = decide (lower u2.email ∈
          adminUnion (envOf c.groups c.enum c.el c.st2) c.gs) := by
        have hfl : flagById c.st3 u2.id = some ((F3 u2).isAdmin) := by
          unfold flagById
          rw [hbyid3]
          rfl
        rw [hfl] at hflag3
        rw [← hu2eq]
        exact Option.some.inj hflag3
      have hu3email : u3.email = u2.email := by
        rw [← hu2eq]
        exact (hF3k u2).1
      rw [← hou_eq]
      unfold adminUpd toOrg
      rw [hU]
      simp [hu3flag, hu3email]
    rw [hflt]
    rfl

/-- C2: the sync is idempotent. After one full tick (membership pass,
role pass, admin pass) whose mutation calls all succeed and are applied
to the sink, a second tick over the unchanged source performs no work:
the second membership pass adds 0 users, removes 0 users and issues no
mutation calls, the second role pass updates 0 roles, and the second
admin pass updates 0 admin flags. -/
theorem sync_engine_idempotent (c : TickCfg) (okta : List OktaMember)
    (henum : ValidEnum c.enum) (hwf : WF c.st0)
    (hgroup : c.groups c.g = .ok okta) :
    c.out2.metrics.users_added = 0 ∧
    c.out2.metrics.users_removed = 0 ∧
    c.out2.trace = [] ∧
    (update_user_roles (envOf c.groups c.enum c.el c.st3) false
      c.out2.desired).1 = 0 ∧
    (sync_admin_privileges (envOf c.groups c.enum c.el c.st3) false
      c.gs).1 = 0 := by
  obtain ⟨h1, h2, h3⟩ := tick_run2 c okta henum hwf hgroup
  exact ⟨h1, h2, h3, tick_role2_zero c okta henum hwf hgroup,
    tick_admin2_zero c okta hwf hgroup⟩

theorem sync_engine_idempotent_witness :
    (ValidEnum cfgW.enum ∧ WF cfgW.st0 ∧
      cfgW.groups cfgW.g = .ok oktaC2) ∧
    (cfgW.out2.metrics.users_added = 0 ∧
     cfgW.out2.metrics.users_removed = 0 ∧
     cfgW.out2.trace = [] ∧
     (update_user_roles (envOf cfgW.groups cfgW.enum cfgW.el cfgW.st3)
        false cfgW.out2.desired).1 = 0 ∧
     (sync_admin_privileges (envOf cfgW.groups cfgW.enum cfgW.el
        cfgW.st3) false cfgW.gs).1 = 0) :=
  ⟨⟨sortEnum_valid, by unfold WF; decide, rfl⟩,
   sync_engine_idempotent cfgW oktaC2 sortEnum_valid
     (by unfold WF; decide) rfl⟩

end GOTS
